import Mathlib

/-!
Receipt processor: scoring rules and the identifier-keyed store.

A shallow embedding of `main.go`.

* Go strings that reach `calculatePoints` come out of `encoding/json`, which
  only produces valid UTF-8, so they are modelled by Lean `String`s;
  `len(s)` is the number of bytes of the UTF-8 encoding.
* Go `int` is the 64-bit two's complement integer of the usual targets: every
  `points += x` wraps modulo `2^64` (`addInt`).
* `float64` is modelled exactly: a finite value is an integer number of
  units of `2^-1074` (the smallest subnormal), and every operation rounds to
  nearest, ties to even, as IEEE 754 prescribes.  The sign of a zero is not
  tracked: no operation of the program can observe it.
* The result of converting to `int` a float that does not fit is left to the
  implementation by the Go specification; it is the parameter `cvt`.
* The library functions the program calls (`regexp`, `strconv.ParseFloat`,
  `math`, `strings.TrimSpace`, `time.Parse`) are modelled from their
  documented behaviour, for the patterns and layouts that `main.go` uses.
* The request body enters `processReceipt` as the outcome of its JSON
  decoding, and the fresh UUID as the string `id`.
-/

set_option exponentiation.threshold 4096

namespace ReceiptProcessor

/-! ## Data model (`main.go`, lines 17-36) -/

/-- One line of a receipt. -/
structure Item where
  ShortDescription : String
  Price : String
deriving DecidableEq

/-- The decoded request body of `POST /receipts/process`. -/
structure Receipt where
  Retailer : String
  PurchaseDate : String
  PurchaseTime : String
  Items : List Item
  Total : String
deriving DecidableEq

/-- What a handler writes: the two JSON bodies, or the text of `http.Error`. -/
inductive Body where
  | ProcessResponse (ID : String)
  | PointsResponse (Points : Int)
  | Error (msg : String)
deriving DecidableEq

/-- Status code and body written to the `http.ResponseWriter`. -/
structure Response where
  status : Nat
  body : Body
deriving DecidableEq

def StatusOK : Nat := 200
def StatusBadRequest : Nat := 400
def StatusNotFound : Nat := 404

/-! ## Machine integers -/

/-- Reduction of an integer to the range of a 64-bit signed `int`. -/
def wrapInt (x : Int) : Int := (x + 2 ^ 63) % 2 ^ 64 - 2 ^ 63

/-- Go `a + b` on `int`. -/
def addInt (a b : Int) : Int := wrapInt (a + b)

/-! ## Go maps keyed by strings -/

/-- A `map[string]V`: the value stored under each key, if any. -/
abbrev GoMap (V : Type) := String → Option V

/-- The map `make(map[string]V)`. -/
def GoMap.make {V : Type} : GoMap V := fun _ => none

/-- The assignment `m[k] = v`. -/
def GoMap.set {V : Type} (m : GoMap V) (k : String) (v : V) : GoMap V :=
  fun j => if j = k then some v else m j

/-- The two package-level maps (`main.go`, lines 38-39). -/
structure Store where
  receipts : GoMap Receipt
  points : GoMap Int

/-- The state at process start. -/
def Store.init : Store := ⟨GoMap.make, GoMap.make⟩

/-! ## Rule 1: `regexp.MustCompile("[a-zA-Z0-9]").FindAllString(s, -1)` -/

/-- The ranges of the character class `[a-zA-Z0-9]`. -/
def alnumClass : List (Char × Char) := [('a', 'z'), ('A', 'Z'), ('0', '9')]

/-- Does the rune belong to one of the ranges of the class. -/
def classMatches (cls : List (Char × Char)) (c : Char) : Bool :=
  cls.any fun r => r.1.toNat ≤ c.toNat && c.toNat ≤ r.2.toNat

/-- All successive non-overlapping matches of a one-rune character class:
the scan tries the class at each rune; a match consumes that rune. -/
def findAllClass (cls : List (Char × Char)) : List Char → List String
  | [] => []
  | c :: rest =>
    if classMatches cls c then String.singleton c :: findAllClass cls rest
    else findAllClass cls rest

/-- The call `FindAllString(s, -1)` of the pattern `[a-zA-Z0-9]`. -/
def FindAllString (s : String) : List String := findAllClass alnumClass s.data

/-- Rule 1 (`main.go`, line 84). -/
def rule1 (receipt : Receipt) (points : Int) : Int :=
  addInt points (FindAllString receipt.Retailer).length

/-! ## float64 -/

/-- A `float64`: `fin k` is the finite value `k * 2^-1074`. -/
inductive F64 where
  | fin (k : Int)
  | inf (neg : Bool)
  | nan
deriving DecidableEq

/-- Number of units of `2^-1074` in the value `1`. -/
def F64.scale : Nat := 2 ^ 1074

/-- The value `2^1024`, in units of `2^-1074`: the least magnitude that is
not a float64. -/
def F64.overflow : Nat := 2 ^ 2098

/-- Number of binary digits of `n`, computed with `fuel` halvings. -/
def bitLenAux : Nat → Nat → Nat
  | 0, _ => 0
  | fuel + 1, n => if n = 0 then 0 else bitLenAux fuel (n / 2) + 1

/-- Number of binary digits of `n` (`0` for `0`). -/
def bitLen (n : Nat) : Nat := bitLenAux n n

/-- The quotient `n / d` rounded to the nearest natural number, ties to the
even one. -/
def roundHalfEven (n d : Nat) : Nat :=
  let q := n / d
  let r := n % d
  if 2 * r < d then q
  else if d < 2 * r then q + 1
  else if q % 2 = 0 then q else q + 1

/-- Magnitude, in units of `2^-1074`, of the float64 nearest to `n / d` units;
`none` when the rounded value reaches `2^1024`.  A value below `2^53` units
is rounded to whole units; a value with `b > 53` binary digits is rounded to
a multiple of `2^(b-53)` units, which keeps 53 significant bits. -/
def roundMag (n d : Nat) : Option Nat :=
  let s := bitLen (n / d) - 53
  let m := roundHalfEven n (d * 2 ^ s) * 2 ^ s
  if m < F64.overflow then some m else none

/-- The float64 nearest to `± n / d` units; overflow gives an infinity. -/
def F64.round (neg : Bool) (n d : Nat) : F64 :=
  match roundMag n d with
  | some m => F64.fin (if neg then -(m : Int) else m)
  | none => F64.inf neg

/-- The float64 nearest to the rational `± n / d`. -/
def F64.ofRat (neg : Bool) (n d : Nat) : F64 := F64.round neg (n * F64.scale) d

/-- Float multiplication. -/
def F64.mul : F64 → F64 → F64
  | F64.fin a, F64.fin b => F64.round (decide (a * b < 0)) (a.natAbs * b.natAbs) (F64.scale)
  | F64.fin a, F64.inf s => if a = 0 then F64.nan else F64.inf (xor s (decide (a < 0)))
  | F64.inf s, F64.fin b => if b = 0 then F64.nan else F64.inf (xor s (decide (b < 0)))
  | F64.inf s, F64.inf t => F64.inf (xor s t)
  | _, _ => F64.nan

/-- The function `math.Floor`. -/
def F64.Floor : F64 → F64
  | F64.fin k => F64.fin (k / F64.scale * F64.scale)
  | x => x

/-- The function `math.Ceil`. -/
def F64.Ceil : F64 → F64
  | F64.fin k => F64.fin (-(-k / F64.scale) * F64.scale)
  | x => x

/-- The comparison `x == y`. -/
def F64.eq : F64 → F64 → Bool
  | F64.fin a, F64.fin b => a == b
  | F64.inf s, F64.inf t => s == t
  | _, _ => false

/-- The function `math.Mod`: the remainder has the sign of `x` and is exact. -/
def F64.Mod : F64 → F64 → F64
  | F64.fin a, F64.fin b =>
    if b = 0 then F64.nan
    else F64.fin (if a < 0 then -((a.natAbs % b.natAbs : Nat) : Int) else ((a.natAbs % b.natAbs : Nat) : Int))
  | F64.fin a, F64.inf _ => F64.fin a
  | _, _ => F64.nan

/-- The conversion `int(x)`: truncation toward zero when the result fits in
an `int`, and the implementation-defined `cvt x` otherwise. -/
def F64.toInt (cvt : F64 → Int) : F64 → Int
  | F64.fin k =>
    let v := if k < 0 then -((k.natAbs / F64.scale : Nat) : Int) else ((k.natAbs / F64.scale : Nat) : Int)
    if -(2 ^ 63) ≤ v ∧ v < 2 ^ 63 then v else wrapInt (cvt (F64.fin k))
  | x => wrapInt (cvt x)

/-! ## `strconv.ParseFloat(s, 64)` -/

/-- The two errors of `strconv`. -/
inductive NumError where
  | ErrSyntax
  | ErrRange
deriving DecidableEq

/-- An ASCII decimal digit. -/
def isDigit (c : Char) : Bool := 48 ≤ c.toNat && c.toNat ≤ 57

/-- Lower-case form of an ASCII letter; `strconv` only ever compares the
result with lower-case letters. -/
def lower (c : Char) : Char :=
  if 65 ≤ c.toNat && c.toNat ≤ 90 then Char.ofNat (c.toNat + 32) else c

/-- One of the letters `a`..`f`, in either case. -/
def isHexLetter (c : Char) : Bool := 97 ≤ (lower c).toNat && (lower c).toNat ≤ 102

/-- Value of a decimal digit. -/
def digitVal (c : Char) : Nat := c.toNat - 48

/-- Value of a hexadecimal letter. -/
def hexLetterVal (c : Char) : Nat := (lower c).toNat - 97 + 10

/-- The function `special`: an optionally signed `inf` or `infinity`, or an
unsigned `nan`, in any case, at the start of the string; returns the value
and the text left over. -/
def special (s : List Char) : Option (F64 × List Char) :=
  let infinity (neg : Bool) (t : List Char) : Option (F64 × List Char) :=
    if (t.take 8).map lower = "infinity".data then some (F64.inf neg, t.drop 8)
    else if (t.take 3).map lower = "inf".data then some (F64.inf neg, t.drop 3)
    else none
  match s with
  | [] => none
  | c :: rest =>
    if c = '+' then infinity false rest
    else if c = '-' then infinity true rest
    else if lower c = 'i' then infinity false s
    else if lower c = 'n' then
      if (s.take 3).map lower = "nan".data then some (F64.nan, s.drop 3) else none
    else none

/-- State of the mantissa loop of `readFloat`. -/
structure Mantissa where
  mant : Nat
  frac : Nat
  sawdot : Bool
  sawdigits : Bool
  underscores : Bool

/-- The mantissa loop of `readFloat`: digits of the base, at most one point,
underscores; stops at the first other character.  `mant` is the number
written by the digits and `frac` the count of digits after the point. -/
def readMantissa (hex : Bool) : List Char → Mantissa → Mantissa × List Char
  | [], st => (st, [])
  | c :: cs, st =>
    if c = '_' then readMantissa hex cs { st with underscores := true }
    else if c = '.' then
      if st.sawdot then (st, c :: cs) else readMantissa hex cs { st with sawdot := true }
    else if isDigit c then
      readMantissa hex cs { st with
        sawdigits := true
        mant := st.mant * (if hex then 16 else 10) + digitVal c
        frac := if st.sawdot then st.frac + 1 else st.frac }
    else if hex && isHexLetter c then
      readMantissa hex cs { st with
        sawdigits := true
        mant := st.mant * 16 + hexLetterVal c
        frac := if st.sawdot then st.frac + 1 else st.frac }
    else (st, c :: cs)

/-- The digits of the exponent: decimal digits and underscores.  As in
`readFloat`, a digit is taken into the value only while the value is below
10000 (`if e < 10000`); later digits are read and dropped. -/
def readExponent : List Char → Nat → Bool → Nat × Bool × List Char
  | [], e, u => (e, u, [])
  | c :: cs, e, u =>
    if isDigit c then readExponent cs (if e < 10000 then e * 10 + digitVal c else e) u
    else if c = '_' then readExponent cs e true
    else (e, u, c :: cs)

/-- The function `underscoreOK`: underscores only between digits, or between
a base prefix and a digit. -/
def underscoreOK (s : List Char) : Bool :=
  let s := match s with
    | c :: cs => if c = '-' ∨ c = '+' then cs else s
    | [] => s
  let pre : Bool := match s with
    | c :: d :: _ => c = '0' && (lower d = 'b' || lower d = 'o' || lower d = 'x')
    | _ => false
  let hex : Bool := match s with
    | _ :: d :: _ => pre && lower d = 'x'
    | _ => false
  let body := if pre then s.drop 2 else s
  let rec go : List Char → Char → Bool
    | [], saw => saw != '_'
    | c :: cs, saw =>
      if isDigit c || (hex && isHexLetter c) then go cs '0'
      else if c = '_' then (if saw != '0' then false else go cs '_')
      else if saw = '_' then false
      else go cs '!'
  go body (if pre then '0' else '^')

/-- What `readFloat` returns on success: the number is
`± mant * base^(-frac) * b^exp`, with `b = 2` for a hexadecimal mantissa and
`b = 10` otherwise. -/
structure ReadFloat where
  neg : Bool
  hex : Bool
  mant : Nat
  frac : Nat
  exp : Int
  rest : List Char
  consumedOK : Bool

/-- The test for a `0x` prefix in `readFloat`: a `0`, an `x` in either case,
and at least one more character. -/
def hexPrefix : List Char → Bool
  | a :: b :: _ :: _ => a = '0' && lower b = 'x'
  | _ => false

/-- The function `readFloat`. -/
def readFloat (s : List Char) : Option ReadFloat :=
  match s with
  | [] => none
  | c0 :: _ =>
    let neg : Bool := c0 = '-'
    let t := if c0 = '+' ∨ c0 = '-' then s.drop 1 else s
    let hex := hexPrefix t
    let t := if hex then t.drop 2 else t
    let (m, t) := readMantissa hex t ⟨0, 0, false, false, false⟩
    if !m.sawdigits then none
    else
      match t with
      | e :: t1 =>
        if lower e = (if hex then 'p' else 'e') then
          match t1 with
          | [] => none
          | sg :: t2 =>
            let eneg : Bool := sg = '-'
            let t3 := if sg = '+' ∨ sg = '-' then t2 else t1
            match t3 with
            | [] => none
            | d :: _ =>
              if !isDigit d then none
              else
                let (ev, u, t4) := readExponent t3 0 m.underscores
                let consumed := s.take (s.length - t4.length)
                some ⟨neg, hex, m.mant, m.frac, if eneg then -(ev : Int) else ev, t4,
                  !u || underscoreOK consumed⟩
        else if hex then none
        else
          some ⟨neg, hex, m.mant, m.frac, 0, t,
            !m.underscores || underscoreOK (s.take (s.length - t.length))⟩
      | [] =>
        if hex then none
        else some ⟨neg, hex, m.mant, m.frac, 0, [], !m.underscores || underscoreOK s⟩

/-- The float64 nearest to `± mant * b^e`. -/
def F64.ofPow (neg : Bool) (mant b : Nat) (e : Int) : F64 :=
  if 0 ≤ e then F64.ofRat neg (mant * b ^ e.toNat) 1
  else F64.ofRat neg mant (b ^ (-e).toNat)

/-- The function `strconv.ParseFloat(s, 64)`: the float64 nearest to the exact
number written by `s`, ties to even; `0` with `ErrSyntax` when `s` is not a
number in the whole; an infinity with `ErrRange` when the number rounds to
`2^1024` or more.  The program keeps the value and drops the error. -/
def ParseFloat (s : String) : F64 × Option NumError :=
  match special s.data with
  | some (v, rest) =>
    if rest = [] then (v, none) else (F64.fin 0, some NumError.ErrSyntax)
  | none =>
    match readFloat s.data with
    | none => (F64.fin 0, some NumError.ErrSyntax)
    | some r =>
      if !r.consumedOK || r.rest ≠ [] then (F64.fin 0, some NumError.ErrSyntax)
      else
        let v := if r.hex then F64.ofPow r.neg r.mant 2 (r.exp - 4 * r.frac)
                 else F64.ofPow r.neg r.mant 10 (r.exp - r.frac)
        match v with
        | F64.inf _ => (v, some NumError.ErrRange)
        | _ => (v, none)

/-! ## `time.Parse` for the layouts `2006-01-02` and `15:04` -/

/-- The fields of a `time.Time` that the program reads. -/
structure Time where
  year : Nat
  month : Nat
  day : Nat
  hour : Nat
  minute : Nat
deriving DecidableEq

/-- The zero `time.Time`, returned with every parse error:
January 1, year 1, 00:00:00 UTC. -/
def Time.zero : Time := ⟨1, 1, 1, 0, 0⟩

/-- The method `Day`. -/
def Time.Day (t : Time) : Int := t.day

/-- The method `Hour`. -/
def Time.Hour (t : Time) : Int := t.hour

/-- The method `Minute`. -/
def Time.Minute (t : Time) : Int := t.minute

/-- The function `getnum`: a number of two digits, or of one digit when the
field is not of fixed width, and the text that follows. -/
def getnum (s : List Char) (fixed : Bool) : Option (Nat × List Char) :=
  match s with
  | [] => none
  | a :: t =>
    if !isDigit a then none
    else
      match t with
      | b :: u =>
        if isDigit b then some (digitVal a * 10 + digitVal b, u)
        else if fixed then none else some (digitVal a, t)
      | [] => if fixed then none else some (digitVal a, t)

/-- The function `isLeap`. -/
def isLeap (year : Nat) : Bool := year % 4 = 0 && (year % 100 != 0 || year % 400 = 0)

/-- The function `daysIn`. -/
def daysIn (month year : Nat) : Nat :=
  if month = 2 then (if isLeap year then 29 else 28)
  else if month = 4 ∨ month = 6 ∨ month = 9 ∨ month = 11 then 30
  else 31

/-- The call `time.Parse("2006-01-02", value)`: four digits of year, `-`, two
digits of month in `1..12`, `-`, two digits of day valid for the month, and
nothing after; `none` stands for every parse error. -/
def parseDate (value : List Char) : Option Time :=
  match value with
  | y1 :: y2 :: y3 :: y4 :: rest =>
    if !(isDigit y1 && isDigit y2 && isDigit y3 && isDigit y4) then none
    else
      let year := ((digitVal y1 * 10 + digitVal y2) * 10 + digitVal y3) * 10 + digitVal y4
      match rest with
      | sep1 :: rest =>
        if sep1 ≠ '-' then none
        else
          match getnum rest true with
          | none => none
          | some (month, rest) =>
            if month = 0 ∨ 12 < month then none
            else
              match rest with
              | sep2 :: rest =>
                if sep2 ≠ '-' then none
                else
                  match getnum rest true with
                  | none => none
                  | some (day, rest) =>
                    if rest ≠ [] then none
                    else if day < 1 ∨ daysIn month year < day then none
                    else some ⟨year, month, day, 0, 0⟩
              | [] => none
      | [] => none
  | _ => none

/-- The call `time.Parse("15:04", value)`: one or two digits of hour below 24,
`:`, two digits of minute below 60, and nothing after.  The date fields a
clock layout leaves out default to January 1 of year 0. -/
def parseClock (value : List Char) : Option Time :=
  match getnum value false with
  | none => none
  | some (hour, rest) =>
    if 24 ≤ hour then none
    else
      match rest with
      | sep :: rest =>
        if sep ≠ ':' then none
        else
          match getnum rest true with
          | none => none
          | some (min, rest) =>
            if 60 ≤ min then none
            else if rest ≠ [] then none
            else some ⟨0, 1, 1, hour, min⟩
      | [] => none

/-- The value of `time.Parse(layout, value)` with the error dropped. -/
def parsedOrZero (r : Option Time) : Time := r.getD Time.zero

/-! ## `strings.TrimSpace` and `len` -/

/-- The function `unicode.IsSpace`: the Latin-1 spaces, and beyond Latin-1 the
code points with the White_Space property. -/
def IsSpace (c : Char) : Bool :=
  let r := c.toNat
  if r ≤ 0xFF then
    r = 0x09 || r = 0x0A || r = 0x0B || r = 0x0C || r = 0x0D || r = 0x20 || r = 0x85 || r = 0xA0
  else
    r = 0x1680 || (0x2000 ≤ r && r ≤ 0x200A) || r = 0x2028 || r = 0x2029 || r = 0x202F
      || r = 0x205F || r = 0x3000

/-- The function `strings.TrimSpace`. -/
def TrimSpace (s : List Char) : List Char :=
  ((s.dropWhile IsSpace).reverse.dropWhile IsSpace).reverse

/-- The builtin `len` of a string: the number of bytes of its UTF-8 encoding. -/
def len (s : List Char) : Nat := (s.map Char.utf8Size).sum

/-! ## The scoring function (`main.go`, lines 80-122) -/

/-- The constant `0.2` as a float64. -/
def const02 : F64 := F64.ofRat false 2 10

/-- The constant `0.25` as a float64. -/
def const025 : F64 := F64.ofRat false 25 100

/-- The constant `0` as a float64. -/
def const0 : F64 := F64.fin 0

/-- Rule 2 (lines 87-90), on the parsed total. -/
def rule2 (total : F64) (points : Int) : Int :=
  if F64.eq total (F64.Floor total) then addInt points 50 else points

/-- Rule 3 (lines 93-95), on the parsed total. -/
def rule3 (total : F64) (points : Int) : Int :=
  if F64.eq (F64.Mod total const025) const0 then addInt points 25 else points

/-- Rule 4 (line 98).  A slice of items has fewer than `2^59` elements, so
the product is exact in an `int`. -/
def rule4 (receipt : Receipt) (points : Int) : Int :=
  addInt points (((receipt.Items.length : Int) / 2) * 5)

/-- Body of the loop of rule 5 (lines 102-106). -/
def rule5Item (cvt : F64 → Int) (points : Int) (item : Item) : Int :=
  let descLen := len (TrimSpace item.ShortDescription.data)
  if descLen % 3 = 0 then
    let price := (ParseFloat item.Price).1
    addInt points (F64.toInt cvt (F64.Ceil (F64.mul price const02)))
  else points

/-- Rule 5 (lines 101-107): the loop over the items. -/
def rule5 (cvt : F64 → Int) (receipt : Receipt) (points : Int) : Int :=
  receipt.Items.foldl (rule5Item cvt) points

/-- Rule 6 (lines 110-113). -/
def rule6 (receipt : Receipt) (points : Int) : Int :=
  let date := parsedOrZero (parseDate receipt.PurchaseDate.data)
  if date.Day % 2 ≠ 0 then addInt points 6 else points

/-- Rule 7 (lines 116-119). -/
def rule7 (receipt : Receipt) (points : Int) : Int :=
  let t := parsedOrZero (parseClock receipt.PurchaseTime.data)
  if t.Hour = 14 ∨ (t.Hour = 15 ∧ t.Minute < 60) then addInt points 10 else points

/-- The function `calculatePoints`. -/
def calculatePoints (cvt : F64 → Int) (receipt : Receipt) : Int :=
  let points := 0
  let points := rule1 receipt points
  let total := (ParseFloat receipt.Total).1
  let points := rule2 total points
  let points := rule3 total points
  let points := rule4 receipt points
  let points := rule5 cvt receipt points
  let points := rule6 receipt points
  let points := rule7 receipt points
  points

/-! ## The handlers (`main.go`, lines 50-78) -/

/-- The handler `processReceipt`.  `decoded` is the outcome of decoding the
request body and `id` the string of the UUID drawn by `uuid.New()`. -/
def processReceipt (cvt : F64 → Int) (decoded : Except String Receipt) (id : String)
    (st : Store) : Response × Store :=
  match decoded with
  | Except.error err => (⟨StatusBadRequest, Body.Error err⟩, st)
  | Except.ok receipt =>
    let st := { st with receipts := st.receipts.set id receipt }
    let st := { st with points := st.points.set id (calculatePoints cvt receipt) }
    (⟨StatusOK, Body.ProcessResponse id⟩, st)

/-- The handler `getPoints`, for the path variable `id`. -/
def getPoints (id : String) (st : Store) : Response × Store :=
  match st.points id with
  | none => (⟨StatusNotFound, Body.Error "Receipt not found"⟩, st)
  | some point => (⟨StatusOK, Body.PointsResponse point⟩, st)

/-! ## Well-formed clock and date texts -/

/-- The character of the last decimal digit of `n`. -/
def digitChar (n : Nat) : Char := Char.ofNat (48 + n % 10)

/-- The text `HH:MM` of hour `h` and minute `m`. -/
def clockText (h m : Nat) : String :=
  ⟨[digitChar (h / 10), digitChar h, ':', digitChar (m / 10), digitChar m]⟩

/-- The text `YYYY-MM-DD` of year `y`, month `m` and day `d`. -/
def dateText (y m d : Nat) : String :=
  ⟨[digitChar (y / 1000), digitChar (y / 100), digitChar (y / 10), digitChar y, '-',
    digitChar (m / 10), digitChar m, '-', digitChar (d / 10), digitChar d]⟩

/-! ## The contribution of each rule -/

/-- What one item adds in rule 5. -/
def itemPoints (cvt : F64 → Int) (item : Item) : Int :=
  if len (TrimSpace item.ShortDescription.data) % 3 = 0 then
    F64.toInt cvt (F64.Ceil (F64.mul (ParseFloat item.Price).1 const02))
  else 0

/-- Sum of the seven amounts the rules add, as a mathematical integer. -/
def pointsSum (cvt : F64 → Int) (r : Receipt) : Int :=
  ((FindAllString r.Retailer).length : Int)
  + (if F64.eq (ParseFloat r.Total).1 (F64.Floor (ParseFloat r.Total).1) then 50 else 0)
  + (if F64.eq (F64.Mod (ParseFloat r.Total).1 const025) const0 then 25 else 0)
  + ((r.Items.length : Int) / 2) * 5
  + (r.Items.map (itemPoints cvt)).sum
  + (if (parsedOrZero (parseDate r.PurchaseDate.data)).Day % 2 ≠ 0 then 6 else 0)
  + (if (parsedOrZero (parseClock r.PurchaseTime.data)).Hour = 14 ∨
        ((parsedOrZero (parseClock r.PurchaseTime.data)).Hour = 15 ∧
          (parsedOrZero (parseClock r.PurchaseTime.data)).Minute < 60) then 10 else 0)

/-- A finite float64 between `0` and `bound`. -/
def F64.nonnegUpTo (bound : Nat) : F64 → Bool
  | F64.fin k => decide (0 ≤ k) && decide (k ≤ bound * F64.scale)
  | _ => false

/-! ## Runs of the handlers -/

/-- The result the amd64 instruction behind `int(x)` gives for a NaN or a
value out of range: the most negative `int`. -/
def cvtAmd64 (_ : F64) : Int := -(2 ^ 63)

/-- A run of `processReceipt` calls, each given by the outcome of decoding
its body and the UUID it draws; returns the responses in order and the
final store. -/
def processAll (cvt : F64 → Int) :
    List (Except String Receipt × String) → Store → List Response × Store
  | [], st => ([], st)
  | (decoded, id) :: calls, st =>
    let (resp, st1) := processReceipt cvt decoded id st
    let (resps, st2) := processAll cvt calls st1
    (resp :: resps, st2)

/-- The identifiers returned to callers by a list of responses. -/
def returnedIDs : List Response → List String
  | [] => []
  | ⟨_, Body.ProcessResponse id⟩ :: rest => id :: returnedIDs rest
  | _ :: rest => returnedIDs rest


/-! ## Constants of the analysis -/

/-- The float64 `0.2`, in units of `2^-1074`. -/
def const02Units : Nat := 3602879701896397 * 2 ^ 1020

/-! ## Decimal currency amounts -/

/-- The number written by a list of decimal digits, after the digits `a`. -/
def digitsValue (ds : List Nat) (a : Nat) : Nat := ds.foldl (fun v d => v * 10 + d % 10) a

/-- The text of a currency amount: the digits `ds` of the whole units, a
point, and the two digits `f1`, `f2` of the cents. -/
def amountText (ds : List Nat) (f1 f2 : Nat) : String :=
  ⟨ds.map digitChar ++ ['.', digitChar f1, digitChar f2]⟩

/-- The exact value of `amountText ds f1 f2`, in cents. -/
def amountCents (ds : List Nat) (f1 f2 : Nat) : Nat :=
  (digitsValue ds 0 * 10 + f1 % 10) * 10 + f2 % 10

/-! ## Sequences of requests -/

/-- One request: `POST /receipts/process`, given by the outcome of decoding
its body and the UUID that `uuid.New()` draws for it, or
`GET /receipts/{id}/points`. -/
inductive Op where
  | process (decoded : Except String Receipt) (id : String)
  | lookup (id : String)

/-- The handler that serves a request. -/
def step (cvt : F64 → Int) : Op → Store → Response × Store
  | Op.process decoded id, st => processReceipt cvt decoded id st
  | Op.lookup id, st => getPoints id st

/-- The store after serving a sequence of requests in order. -/
def run (cvt : F64 → Int) : List Op → Store → Store
  | [], st => st
  | op :: ops, st => run cvt ops (step cvt op st).2

/-- The UUIDs drawn while serving a sequence of requests: `processReceipt`
calls `uuid.New()` only once the body has been decoded. -/
def drawn : List Op → List String
  | [] => []
  | Op.process (Except.ok _) id :: ops => id :: drawn ops
  | _ :: ops => drawn ops

/-- The two maps have the same keys, and the total kept under a key is the
score of the receipt kept under it. -/
def Store.consistent (cvt : F64 → Int) (st : Store) : Prop :=
  ∀ id : String,
    ((st.receipts id).isSome = (st.points id).isSome) ∧
    ∀ r, st.receipts id = some r → st.points id = some (calculatePoints cvt r)

/-! ## The seven amounts -/

/-- Amount of rule 1: the number of matches of `[a-zA-Z0-9]` in the retailer. -/
def retailerPoints (r : Receipt) : Int := ((FindAllString r.Retailer).length : Int)

/-- Amount of rule 2. -/
def roundTotalPoints (r : Receipt) : Int :=
  if F64.eq (ParseFloat r.Total).1 (F64.Floor (ParseFloat r.Total).1) then 50 else 0

/-- Amount of rule 3. -/
def quarterTotalPoints (r : Receipt) : Int :=
  if F64.eq (F64.Mod (ParseFloat r.Total).1 const025) const0 then 25 else 0

/-- Amount of rule 4. -/
def itemPairPoints (r : Receipt) : Int := ((r.Items.length : Int) / 2) * 5

/-- Amount of rule 5: the sum of the amounts of the items. -/
def descriptionPoints (cvt : F64 → Int) (r : Receipt) : Int :=
  (r.Items.map (itemPoints cvt)).sum

/-- Amount of rule 6. -/
def oddDayPoints (r : Receipt) : Int :=
  if (parsedOrZero (parseDate r.PurchaseDate.data)).Day % 2 ≠ 0 then 6 else 0

/-- Amount of rule 7. -/
def afternoonPoints (r : Receipt) : Int :=
  if (parsedOrZero (parseClock r.PurchaseTime.data)).Hour = 14 ∨
      ((parsedOrZero (parseClock r.PurchaseTime.data)).Hour = 15 ∧
        (parsedOrZero (parseClock r.PurchaseTime.data)).Minute < 60) then 10 else 0

/-! ## `calculatePoints` as a call in the program state -/

theorem wrapInt_of_range {x : Int} (h0 : -(2 ^ 63) ≤ x) (h1 : x < 2 ^ 63) : wrapInt x = x := by
  unfold wrapInt
  norm_num at h0 h1 ⊢
  omega

theorem wrapInt_add_wrapInt (a b : Int) : wrapInt (wrapInt a + b) = wrapInt (a + b) := by
  unfold wrapInt
  norm_num
  omega

theorem wrapInt_range (x : Int) : -(2 ^ 63) ≤ wrapInt x ∧ wrapInt x < 2 ^ 63 := by
  unfold wrapInt
  norm_num
  omega

/-! ## The store -/

theorem processAll_points_of_not_returned (cvt : F64 → Int)
    (calls : List (Except String Receipt × String)) (st : Store) (id : String)
    (h : id ∉ returnedIDs (processAll cvt calls st).1) :
    (processAll cvt calls st).2.points id = st.points id := by
  induction calls generalizing st with
  | nil => rfl
  | cons call calls ih =>
    obtain ⟨decoded, id1⟩ := call
    cases decoded with
    | error err =>
      simp only [processAll, processReceipt, returnedIDs] at h ⊢
      exact ih st h
    | ok receipt =>
      simp only [processAll, processReceipt, returnedIDs, List.mem_cons, not_or] at h ⊢
      rw [ih _ h.2]
      simp [GoMap.set, h.1]

/-- C1: after `processReceipt` has stored a decoded receipt `r` under the
identifier `id` it returns, `getPoints` of `id` in the resulting state answers
200 with exactly `calculatePoints r`. -/
theorem lookup_after_process (cvt : F64 → Int) (st : Store) (r : Receipt) (id : String) :
    (processReceipt cvt (Except.ok r) id st).1 = ⟨StatusOK, Body.ProcessResponse id⟩ ∧
    (processReceipt cvt (Except.ok r) id st).2.receipts id = some r ∧
    (getPoints id (processReceipt cvt (Except.ok r) id st).2).1
      = ⟨StatusOK, Body.PointsResponse (calculatePoints cvt r)⟩ := by
  simp [processReceipt, getPoints, GoMap.set]

/-- C2: starting from the empty store, after any sequence of `processReceipt`
calls, `getPoints` of an identifier that none of the calls returned answers
404 "Receipt not found", carries no point total and leaves the store as it is. -/
theorem lookup_never_issued (cvt : F64 → Int)
    (calls : List (Except String Receipt × String)) (id : String)
    (h : id ∉ returnedIDs (processAll cvt calls Store.init).1) :
    getPoints id (processAll cvt calls Store.init).2
      = (⟨StatusNotFound, Body.Error "Receipt not found"⟩, (processAll cvt calls Store.init).2) ∧
    ∀ p, (getPoints id (processAll cvt calls Store.init).2).1.body ≠ Body.PointsResponse p := by
  have hp := processAll_points_of_not_returned cvt calls Store.init id h
  have h0 : Store.init.points id = none := rfl
  rw [h0] at hp
  simp [getPoints, hp]

theorem lookup_never_issued_witness :
    "b" ∉ returnedIDs (processAll cvtAmd64
        [(Except.ok ⟨"Target", "2022-01-01", "13:01", [], "35.35"⟩, "a"),
         (Except.error "unexpected EOF", "b")] Store.init).1 ∧
    getPoints "b" (processAll cvtAmd64
        [(Except.ok ⟨"Target", "2022-01-01", "13:01", [], "35.35"⟩, "a"),
         (Except.error "unexpected EOF", "b")] Store.init).2
      = (⟨StatusNotFound, Body.Error "Receipt not found"⟩, (processAll cvtAmd64
        [(Except.ok ⟨"Target", "2022-01-01", "13:01", [], "35.35"⟩, "a"),
         (Except.error "unexpected EOF", "b")] Store.init).2) :=
  ⟨by decide, (lookup_never_issued cvtAmd64 _ "b" (by decide)).1⟩

theorem classMatches_alnum (c : Char) : classMatches alnumClass c = c.isAlphanum := by
  have h1 : ∀ (a b : UInt32), (a ≤ b) ↔ a.toNat ≤ b.toNat := fun a b => Iff.rfl
  have h2 : ∀ (a b : UInt32), (a ≥ b) ↔ b.toNat ≤ a.toNat := fun a b => Iff.rfl
  simp only [classMatches, alnumClass, Char.isAlphanum, Char.isAlpha, Char.isUpper, Char.isLower,
    Char.isDigit, List.any_cons, List.any_nil, Char.toNat, h1, h2, Bool.or_false]
  have e1 : ('a' : Char).val.toNat = 97 := by decide
  have e2 : ('z' : Char).val.toNat = 122 := by decide
  have e3 : ('A' : Char).val.toNat = 65 := by decide
  have e4 : ('Z' : Char).val.toNat = 90 := by decide
  have e5 : ('0' : Char).val.toNat = 48 := by decide
  have e6 : ('9' : Char).val.toNat = 57 := by decide
  have e7 : (65 : UInt32).toNat = 65 := by decide
  have e8 : (90 : UInt32).toNat = 90 := by decide
  have e9 : (97 : UInt32).toNat = 97 := by decide
  have e10 : (122 : UInt32).toNat = 122 := by decide
  have e11 : (48 : UInt32).toNat = 48 := by decide
  have e12 : (57 : UInt32).toNat = 57 := by decide
  simp only [e1, e2, e3, e4, e5, e6, e7, e8, e9, e10, e11, e12]
  generalize c.val.toNat = n
  by_cases a1 : 97 ≤ n <;> by_cases a2 : n ≤ 122 <;> by_cases a3 : 65 ≤ n <;>
    by_cases a4 : n ≤ 90 <;> by_cases a5 : 48 ≤ n <;> by_cases a6 : n ≤ 57 <;>
    simp [a1, a2, a3, a4, a5, a6]

theorem findAllClass_length (l : List Char) :
    (findAllClass alnumClass l).length = (l.filter Char.isAlphanum).length := by
  induction l with
  | nil => rfl
  | cons c rest ih =>
    simp only [findAllClass, List.filter_cons, classMatches_alnum]
    cases hc : c.isAlphanum <;> simp [ih]

/-- C4: the retailer rule adds exactly the number of characters of the
retailer name that are ASCII letters or digits, repeats counted; a character
outside `a-z`, `A-Z`, `0-9` (a space, punctuation, any non-ASCII character)
adds nothing.  "Target" gives 6 and "M&M Corner Market" gives 14. -/
theorem rule1_counts_alphanumerics :
    (∀ (r : Receipt) (points : Int),
      rule1 r points = addInt points ((r.Retailer.data.filter Char.isAlphanum).length : Nat)) ∧
    (∀ c : Char, c.isAlphanum = true ↔
      (97 ≤ c.toNat ∧ c.toNat ≤ 122) ∨ (65 ≤ c.toNat ∧ c.toNat ≤ 90) ∨
      (48 ≤ c.toNat ∧ c.toNat ≤ 57)) ∧
    (∀ (c : Char) (pre post : List Char), c.isAlphanum = false →
      (FindAllString ⟨pre ++ c :: post⟩).length = (FindAllString ⟨pre ++ post⟩).length) ∧
    (FindAllString "Target").length = 6 ∧
    (FindAllString "M&M Corner Market").length = 14 := by
  refine ⟨?_, ?_, ?_, by decide, by decide⟩
  · intro r points
    simp only [rule1, FindAllString, findAllClass_length]
  · intro c
    rw [← classMatches_alnum]
    simp [classMatches, alnumClass]
  · intro c pre post hc
    simp only [FindAllString, findAllClass_length, List.filter_append, List.filter_cons, hc]
    simp

/-- C9: the item-count rule adds exactly `floor(n / 2) * 5` for a receipt
with `n` items, whatever the items contain: two items give 5, three give 5,
four give 10. -/
theorem rule4_pairs :
    (∀ (r : Receipt) (points : Int),
      rule4 r points = addInt points (((r.Items.length / 2 : Nat) : Int) * 5)) ∧
    (∀ (a b : Item) (s d t u : String), rule4 ⟨s, d, t, [a, b], u⟩ 0 = 5) ∧
    (∀ (a b c : Item) (s d t u : String), rule4 ⟨s, d, t, [a, b, c], u⟩ 0 = 5) ∧
    (∀ (a b c e : Item) (s d t u : String), rule4 ⟨s, d, t, [a, b, c, e], u⟩ 0 = 10) := by
  refine ⟨?_, ?_, ?_, ?_⟩
  · intro r points
    simp only [rule4]
    norm_cast
  · intro a b s d t u
    simp only [rule4, List.length_cons, List.length_nil]
    decide
  · intro a b c s d t u
    simp only [rule4, List.length_cons, List.length_nil]
    decide
  · intro a b c e s d t u
    simp only [rule4, List.length_cons, List.length_nil]
    decide

/-! ## Dates and clock times -/

theorem digitChar_spec (n : Nat) :
    isDigit (digitChar n) = true ∧ digitVal (digitChar n) = n % 10 ∧
    digitChar n ≠ '-' ∧ digitChar n ≠ ':' := by
  unfold digitChar
  have h : n % 10 < 10 := Nat.mod_lt _ (by norm_num)
  generalize n % 10 = k at h
  interval_cases k <;> decide

theorem parseClock_clockText (h m : Nat) (hh : h < 24) (hm : m < 60) :
    parseClock (clockText h m).data = some ⟨0, 1, 1, h, m⟩ := by
  obtain ⟨a1, a2, _, _⟩ := digitChar_spec (h / 10)
  obtain ⟨b1, b2, _, _⟩ := digitChar_spec h
  obtain ⟨c1, c2, _, _⟩ := digitChar_spec (m / 10)
  obtain ⟨d1, d2, _, _⟩ := digitChar_spec m
  have e1 : h / 10 % 10 * 10 + h % 10 = h := by omega
  have e2 : m / 10 % 10 * 10 + m % 10 = m := by omega
  simp [parseClock, clockText, getnum, a1, a2, b1, b2, c1, c2, d1, d2, e1, e2]
  omega

theorem parseDate_dateText (y m d : Nat) (hy : y ≤ 9999) (hm1 : 1 ≤ m) (hm : m ≤ 12)
    (hd1 : 1 ≤ d) (hd : d ≤ daysIn m y) :
    parseDate (dateText y m d).data = some ⟨y, m, d, 0, 0⟩ := by
  obtain ⟨a1, a2, _, _⟩ := digitChar_spec (y / 1000)
  obtain ⟨b1, b2, _, _⟩ := digitChar_spec (y / 100)
  obtain ⟨c1, c2, _, _⟩ := digitChar_spec (y / 10)
  obtain ⟨d1, d2, _, _⟩ := digitChar_spec y
  obtain ⟨f1, f2, _, _⟩ := digitChar_spec (m / 10)
  obtain ⟨g1, g2, _, _⟩ := digitChar_spec m
  obtain ⟨i1, i2, _, _⟩ := digitChar_spec (d / 10)
  obtain ⟨j1, j2, _, _⟩ := digitChar_spec d
  have hd31 : d ≤ 31 := by
    have : daysIn m y ≤ 31 := by
      unfold daysIn
      split_ifs <;> omega
    omega
  have e1 : ((y / 1000 % 10 * 10 + y / 100 % 10) * 10 + y / 10 % 10) * 10 + y % 10 = y := by
    omega
  have e2 : m / 10 % 10 * 10 + m % 10 = m := by omega
  have e3 : d / 10 % 10 * 10 + d % 10 = d := by omega
  simp [parseDate, dateText, getnum, a1, a2, b1, b2, c1, c2, d1, d2, f1, f2, g1, g2, i1, i2,
    j1, j2, e1, e2, e3]
  omega

/-- C8: for a purchase time `HH:MM` with `HH < 24` and `MM < 60`, the
afternoon rule adds 10 exactly when the time is at or after 14:00 and
strictly before 16:00, and nothing otherwise; the condition of the code
holds exactly when the hour is 14 or 15, its minute test being true. -/
theorem rule7_afternoon (r : Receipt) (points : Int) (h m : Nat) (hh : h < 24) (hm : m < 60)
    (ht : r.PurchaseTime = clockText h m) :
    rule7 r points
      = (if 14 * 60 ≤ h * 60 + m ∧ h * 60 + m < 16 * 60 then addInt points 10 else points) ∧
    (parsedOrZero (parseClock r.PurchaseTime.data)).Hour = h ∧
    (parsedOrZero (parseClock r.PurchaseTime.data)).Minute = m ∧
    (parsedOrZero (parseClock r.PurchaseTime.data)).Minute < 60 ∧
    (((parsedOrZero (parseClock r.PurchaseTime.data)).Hour = 14 ∨
        ((parsedOrZero (parseClock r.PurchaseTime.data)).Hour = 15 ∧
          (parsedOrZero (parseClock r.PurchaseTime.data)).Minute < 60)) ↔
      (h = 14 ∨ h = 15)) := by
  have hp := parseClock_clockText h m hh hm
  simp only [rule7, ht, hp, parsedOrZero, Option.getD_some, Time.Hour, Time.Minute]
  refine ⟨?_, trivial, trivial, by omega, ?_⟩
  · by_cases c : 14 * 60 ≤ h * 60 + m ∧ h * 60 + m < 16 * 60
    · have : (h : Int) = 14 ∨ ((h : Int) = 15 ∧ (m : Int) < 60) := by omega
      rw [if_pos this, if_pos c]
    · have : ¬ ((h : Int) = 14 ∨ ((h : Int) = 15 ∧ (m : Int) < 60)) := by omega
      rw [if_neg this, if_neg c]
  · constructor <;> intro hc <;> omega

theorem rule7_afternoon_witness :
    rule7 ⟨"Target", "2022-01-01", "14:33", [], "35.35"⟩ 0 = 10 ∧
    rule7 ⟨"Target", "2022-01-01", "13:01", [], "35.35"⟩ 0 = 0 ∧
    rule7 ⟨"Target", "2022-01-01", "16:00", [], "35.35"⟩ 0 = 0 ∧
    rule7 ⟨"Target", "2022-01-01", "14:00", [], "35.35"⟩ 0 = 10 ∧
    rule7 ⟨"Target", "2022-01-01", "15:59", [], "35.35"⟩ 0 = 10 :=
  ⟨(rule7_afternoon ⟨"Target", "2022-01-01", "14:33", [], "35.35"⟩ 0 14 33
      (by decide) (by decide) (by decide)).1.trans (by decide),
    by decide, by decide, by decide, by decide⟩

/-- C10: for a purchase date `YYYY-MM-DD` that names a day of the calendar,
the odd-day rule adds 6 when the day of the month is odd and nothing when it
is even. -/
theorem rule6_odd_day (r : Receipt) (points : Int) (y m d : Nat) (hy : y ≤ 9999)
    (hm1 : 1 ≤ m) (hm : m ≤ 12) (hd1 : 1 ≤ d) (hd : d ≤ daysIn m y)
    (ht : r.PurchaseDate = dateText y m d) :
    rule6 r points = (if d % 2 = 1 then addInt points 6 else points) ∧
    (parsedOrZero (parseDate r.PurchaseDate.data)).Day = d := by
  have hp := parseDate_dateText y m d hy hm1 hm hd1 hd
  simp only [rule6, ht, hp, parsedOrZero, Option.getD_some, Time.Day]
  refine ⟨?_, trivial⟩
  by_cases c : d % 2 = 1
  · have : ((d : Int) % 2 ≠ 0) := by omega
    rw [if_pos this, if_pos c]
  · have : ¬ ((d : Int) % 2 ≠ 0) := by omega
    rw [if_neg this, if_neg c]

theorem rule6_odd_day_witness :
    rule6 ⟨"Target", "2022-01-01", "13:01", [], "35.35"⟩ 0 = 6 ∧
    rule6 ⟨"Target", "2022-01-02", "13:01", [], "35.35"⟩ 0 = 0 :=
  ⟨(rule6_odd_day ⟨"Target", "2022-01-01", "13:01", [], "35.35"⟩ 0 2022 1 1
      (by decide) (by decide) (by decide) (by decide) (by decide) (by decide)).1.trans
      (by decide),
    (rule6_odd_day ⟨"Target", "2022-01-02", "13:01", [], "35.35"⟩ 0 2022 1 2
      (by decide) (by decide) (by decide) (by decide) (by decide) (by decide)).1.trans
      (by decide)⟩

/-! ## Rounding -/

theorem bitLenAux_zero (fuel : Nat) : bitLenAux fuel 0 = 0 := by
  cases fuel <;> simp [bitLenAux]

theorem bitLenAux_spec (fuel n : Nat) (hf : n ≤ fuel) (hn : n ≠ 0) :
    2 ^ (bitLenAux fuel n - 1) ≤ n ∧ n < 2 ^ bitLenAux fuel n := by
  induction fuel generalizing n with
  | zero => omega
  | succ f ih =>
    simp only [bitLenAux, hn, if_false, Nat.add_sub_cancel]
    by_cases h2 : n / 2 = 0
    · have h1 : n = 1 := by omega
      subst h1
      simp [bitLenAux_zero]
    · have hle : n / 2 ≤ f := by omega
      obtain ⟨l, u⟩ := ih (n / 2) hle h2
      have hb : bitLenAux f (n / 2) ≠ 0 := by
        intro h0
        rw [h0] at u
        simp at u
        exact h2 u
      obtain ⟨b, hb'⟩ := Nat.exists_eq_succ_of_ne_zero hb
      rw [hb'] at l u ⊢
      simp only [Nat.succ_sub_one] at l
      rw [Nat.pow_succ] at u ⊢
      rw [Nat.pow_succ]
      constructor <;> omega

theorem bitLen_spec (n : Nat) (hn : n ≠ 0) : 2 ^ (bitLen n - 1) ≤ n ∧ n < 2 ^ bitLen n :=
  bitLenAux_spec n n (Nat.le_refl n) hn

theorem bitLen_zero : bitLen 0 = 0 := rfl

theorem roundHalfEven_bounds (n d : Nat) :
    n / d ≤ roundHalfEven n d ∧ roundHalfEven n d ≤ n / d + 1 := by
  unfold roundHalfEven
  simp only
  split_ifs <;> omega

theorem two_pow_shift_le (t : Nat) : 2 ^ (bitLen t - 53) ≤ t + 1 := by
  by_cases ht : t = 0
  · subst ht
    simp [bitLen_zero]
  · have h := (bitLen_spec t ht).1
    have : 2 ^ (bitLen t - 53) ≤ 2 ^ (bitLen t - 1) :=
      Nat.pow_le_pow_right (by norm_num) (by omega)
    omega

theorem roundMag_le (n d m : Nat) (h : roundMag n d = some m) : m ≤ 2 * (n / d) + 1 := by
  unfold roundMag at h
  simp only at h
  split_ifs at h with hlt
  simp only [Option.some.injEq] at h
  subst h
  have hb := (roundHalfEven_bounds n (d * 2 ^ (bitLen (n / d) - 53))).2
  have hs := two_pow_shift_le (n / d)
  have hdiv : n / (d * 2 ^ (bitLen (n / d) - 53)) = n / d / 2 ^ (bitLen (n / d) - 53) := by
    rw [Nat.div_div_eq_div_mul]
  rw [hdiv] at hb
  have hmul : n / d / 2 ^ (bitLen (n / d) - 53) * 2 ^ (bitLen (n / d) - 53) ≤ n / d :=
    Nat.div_mul_le_self _ _
  calc roundHalfEven n (d * 2 ^ (bitLen (n / d) - 53)) * 2 ^ (bitLen (n / d) - 53)
      ≤ (n / d / 2 ^ (bitLen (n / d) - 53) + 1) * 2 ^ (bitLen (n / d) - 53) :=
        Nat.mul_le_mul_right _ hb
    _ = n / d / 2 ^ (bitLen (n / d) - 53) * 2 ^ (bitLen (n / d) - 53)
          + 2 ^ (bitLen (n / d) - 53) := by ring
    _ ≤ 2 * (n / d) + 1 := by omega

theorem roundMag_isSome_of_small (n d : Nat) (h : 2 * (n / d) + 1 < F64.overflow) :
    ∃ m, roundMag n d = some m ∧ m ≤ 2 * (n / d) + 1 := by
  have key : roundHalfEven n (d * 2 ^ (bitLen (n / d) - 53)) * 2 ^ (bitLen (n / d) - 53)
      ≤ 2 * (n / d) + 1 := by
    by_cases hlt : roundHalfEven n (d * 2 ^ (bitLen (n / d) - 53)) * 2 ^ (bitLen (n / d) - 53)
        < F64.overflow
    · exact roundMag_le n d _ (by simp [roundMag, hlt])
    · exfalso
      have hb := (roundHalfEven_bounds n (d * 2 ^ (bitLen (n / d) - 53))).2
      have hs := two_pow_shift_le (n / d)
      have hdiv : n / (d * 2 ^ (bitLen (n / d) - 53)) = n / d / 2 ^ (bitLen (n / d) - 53) := by
        rw [Nat.div_div_eq_div_mul]
      rw [hdiv] at hb
      have hmul : n / d / 2 ^ (bitLen (n / d) - 53) * 2 ^ (bitLen (n / d) - 53) ≤ n / d :=
        Nat.div_mul_le_self _ _
      have : roundHalfEven n (d * 2 ^ (bitLen (n / d) - 53)) * 2 ^ (bitLen (n / d) - 53)
          ≤ (n / d / 2 ^ (bitLen (n / d) - 53) + 1) * 2 ^ (bitLen (n / d) - 53) :=
        Nat.mul_le_mul_right _ hb
      have e : (n / d / 2 ^ (bitLen (n / d) - 53) + 1) * 2 ^ (bitLen (n / d) - 53)
          = n / d / 2 ^ (bitLen (n / d) - 53) * 2 ^ (bitLen (n / d) - 53)
            + 2 ^ (bitLen (n / d) - 53) := by ring
      omega
  refine ⟨_, ?_, key⟩
  simp only [roundMag]
  rw [if_pos (lt_of_le_of_lt key h)]

/-! ## The total as a wrapped sum -/

theorem rule5Item_wrap (cvt : F64 → Int) (p : Int) (item : Item) :
    rule5Item cvt (wrapInt p) item = wrapInt (p + itemPoints cvt item) := by
  unfold rule5Item itemPoints
  simp only
  split_ifs
  · exact wrapInt_add_wrapInt _ _
  · simp

theorem foldl_rule5Item (cvt : F64 → Int) (items : List Item) (p : Int) :
    items.foldl (rule5Item cvt) (wrapInt p)
      = wrapInt (p + (items.map (itemPoints cvt)).sum) := by
  induction items generalizing p with
  | nil => simp
  | cons item rest ih =>
    simp only [List.foldl_cons, List.map_cons, List.sum_cons]
    rw [rule5Item_wrap, ih]
    congr 1
    ring

theorem ite_addInt_wrap (c : Prop) [Decidable c] (p x : Int) :
    (if c then addInt (wrapInt p) x else wrapInt p) = wrapInt (p + if c then x else 0) := by
  split_ifs
  · exact wrapInt_add_wrapInt _ _
  · simp

theorem calculatePoints_eq_wrap_sum (cvt : F64 → Int) (r : Receipt) :
    calculatePoints cvt r = wrapInt (pointsSum cvt r) := by
  unfold calculatePoints pointsSum
  simp only [rule1, rule2, rule3, rule4, rule5, rule6, rule7]
  have h1 : addInt 0 ((FindAllString r.Retailer).length : Int)
      = wrapInt ((FindAllString r.Retailer).length : Int) := by
    simp [addInt]
  rw [h1, ite_addInt_wrap, ite_addInt_wrap]
  rw [show ∀ a b : Int, addInt (wrapInt a) b = wrapInt (a + b) from
    fun a b => wrapInt_add_wrapInt a b]
  rw [foldl_rule5Item, ite_addInt_wrap, ite_addInt_wrap]

/-! ## Prices that score a non-negative amount -/

theorem const02_eq : const02 = F64.fin (const02Units : Int) := by decide!

theorem const02_small : const02Units * 4 ≤ F64.scale := by
  have h : F64.scale = 2 ^ 1020 * 2 ^ 54 := by
    rw [F64.scale, ← pow_add]
  rw [h, const02Units, Nat.mul_right_comm]
  calc 3602879701896397 * 4 * 2 ^ 1020 ≤ 2 ^ 54 * 2 ^ 1020 :=
        Nat.mul_le_mul_right _ (by norm_num)
    _ = 2 ^ 1020 * 2 ^ 54 := Nat.mul_comm _ _

theorem scale_pos : 0 < F64.scale := by
  rw [F64.scale]
  positivity

theorem overflow_eq : F64.overflow = 2 ^ 1024 * F64.scale := by
  have h : (2098 : Nat) = 1024 + 1074 := by norm_num
  rw [F64.overflow, F64.scale, h, pow_add]

theorem mul_fin_nonneg (k c : Nat) :
    F64.mul (F64.fin (k : Int)) (F64.fin (c : Int)) = F64.round false (k * c) F64.scale := by
  have hneg : decide ((k : Int) * (c : Int) < 0) = false := by
    rw [decide_eq_false_iff_not]
    have : (0 : Int) ≤ (k : Int) * (c : Int) := by positivity
    omega
  show F64.round (decide ((k : Int) * (c : Int) < 0))
    ((k : Int).natAbs * (c : Int).natAbs) _ = _
  rw [hneg, Int.natAbs_ofNat, Int.natAbs_ofNat]

theorem mul_const02_of_nonneg (k : Nat) (hk : k ≤ 2 ^ 63 * F64.scale) :
    ∃ m : Nat, F64.mul (F64.fin (k : Int)) const02 = F64.fin (m : Int) ∧
      m ≤ 2 ^ 62 * F64.scale + 1 := by
  rw [const02_eq, mul_fin_nonneg]
  have hs := scale_pos
  have hc := const02_small
  have ho := overflow_eq
  generalize F64.scale = U at *
  generalize const02Units = C at *
  have hq : k * C / U ≤ 2 ^ 61 * U := by
    apply Nat.div_le_of_le_mul
    calc k * C ≤ 2 ^ 63 * U * C := Nat.mul_le_mul_right _ hk
      _ = 2 ^ 61 * U * (C * 4) := by ring
      _ ≤ 2 ^ 61 * U * U := Nat.mul_le_mul_left _ hc
      _ = U * (2 ^ 61 * U) := by ring
  have h2 : (2 : Nat) ^ 62 * U = 2 * (2 ^ 61 * U) := by ring
  have hsmall : 2 * (k * C / U) + 1 < F64.overflow := by
    rw [ho]
    have h1 : (2 : Nat) ^ 63 * U ≤ 2 ^ 1024 * U :=
      Nat.mul_le_mul_right _ (Nat.pow_le_pow_right (by norm_num) (by norm_num))
    have h3 : (2 : Nat) ^ 63 * U = 2 * (2 ^ 62 * U) := by ring
    have h4 : 0 < (2 : Nat) ^ 61 * U := by positivity
    generalize (2 : Nat) ^ 1024 * U = B at *
    generalize (2 : Nat) ^ 63 * U = B1 at *
    generalize (2 : Nat) ^ 62 * U = B2 at *
    generalize (2 : Nat) ^ 61 * U = B3 at *
    omega
  obtain ⟨m, hm, hle⟩ := roundMag_isSome_of_small (k * C) U hsmall
  refine ⟨m, ?_, ?_⟩
  · unfold F64.round
    rw [hm]
    rfl
  · omega

theorem neg_ediv_neg (m U : Nat) (hU : 0 < U) :
    -(-(m : Int) / (U : Int)) = (((m + U - 1) / U : Nat) : Int) := by
  have h1 : (m + U - 1) / U * U ≤ m + U - 1 := Nat.div_mul_le_self _ _
  have h2 : m + U - 1 < U * ((m + U - 1) / U + 1) := Nat.lt_mul_div_succ _ hU
  rw [Nat.mul_add, Nat.mul_one, Nat.mul_comm] at h2
  generalize (m + U - 1) / U = j at *
  have hU' : (0 : Int) < (U : Int) := by exact_mod_cast hU
  have key := (Int.ediv_emod_unique (a := -(m : Int)) (r := (j : Int) * U - m)
    (q := -(j : Int)) hU').2 ⟨by ring, by zify at h1 h2; omega, by zify at h1 h2; omega⟩
  rw [key.1, neg_neg]

theorem toInt_Ceil_fin_nonneg (cvt : F64 → Int) (m : Nat) (hm : m ≤ 2 ^ 62 * F64.scale + 1) :
    F64.toInt cvt (F64.Ceil (F64.fin (m : Int)))
      = (((m + F64.scale - 1) / F64.scale : Nat) : Int) := by
  unfold F64.Ceil F64.toInt
  simp only
  have hs := scale_pos
  generalize F64.scale = U at *
  rw [neg_ediv_neg m U hs]
  have hj2 : (m + U - 1) / U ≤ 2 ^ 62 + 1 := by
    have : m + U - 1 < (2 ^ 62 + 2) * U := by
      have e : (2 ^ 62 + 2) * U = 2 ^ 62 * U + U + U := by ring
      omega
    have := (Nat.div_lt_iff_lt_mul hs).2 this
    omega
  generalize (m + U - 1) / U = j at *
  have hnn : ¬ ((j : Int) * (U : Int) < 0) := by
    have : (0 : Int) ≤ (j : Int) * (U : Int) := by positivity
    omega
  rw [if_neg hnn]
  have hq : ((j : Int) * (U : Int)).natAbs / U = j := by
    rw [← Int.natCast_mul, Int.natAbs_ofNat]
    exact Nat.mul_div_cancel _ hs
  rw [hq]
  have hr : -(2 ^ 63 : Int) ≤ (j : Int) ∧ (j : Int) < 2 ^ 63 := by
    constructor <;> omega
  rw [if_pos hr]

theorem itemPoints_nonneg (cvt : F64 → Int) (item : Item)
    (h : F64.nonnegUpTo (2 ^ 63) (ParseFloat item.Price).1 = true) :
    0 ≤ itemPoints cvt item := by
  unfold itemPoints
  split_ifs
  · cases hp : (ParseFloat item.Price).1 with
    | fin k =>
      rw [hp] at h
      simp only [F64.nonnegUpTo, Bool.and_eq_true, decide_eq_true_eq] at h
      obtain ⟨h0, h1⟩ := h
      obtain ⟨n, rfl⟩ := Int.eq_ofNat_of_zero_le h0
      have hn : n ≤ 2 ^ 63 * F64.scale := by exact_mod_cast h1
      obtain ⟨m, hm, hle⟩ := mul_const02_of_nonneg n hn
      rw [hm, toInt_Ceil_fin_nonneg cvt m hle]
      positivity
    | inf s => rw [hp] at h; simp [F64.nonnegUpTo] at h
    | nan => rw [hp] at h; simp [F64.nonnegUpTo] at h
  · exact le_refl 0

theorem pointsSum_nonneg (cvt : F64 → Int) (r : Receipt)
    (h : ∀ item ∈ r.Items, F64.nonnegUpTo (2 ^ 63) (ParseFloat item.Price).1 = true) :
    0 ≤ pointsSum cvt r := by
  have hsum : 0 ≤ (r.Items.map (itemPoints cvt)).sum := by
    apply List.sum_nonneg
    intro x hx
    obtain ⟨item, hi, rfl⟩ := List.mem_map.1 hx
    exact itemPoints_nonneg cvt item (h item hi)
  have h4 : 0 ≤ ((r.Items.length : Int) / 2) * 5 := by
    have : (0 : Int) ≤ (r.Items.length : Int) / 2 := Int.ediv_nonneg (by positivity) (by norm_num)
    positivity
  unfold pointsSum
  have h1 : (0 : Int) ≤ ((FindAllString r.Retailer).length : Int) := by positivity
  split_ifs <;> omega

/-- C3, amended: when every item price parses to a finite float64 between 0
and `2^63` (a text that is not a number parses to 0) and the amounts the seven
rules add come to less than `2^63`, `calculatePoints` returns that sum, and it
is greater than or equal to 0. -/
theorem calculatePoints_nonneg (cvt : F64 → Int) (r : Receipt)
    (hprice : ∀ item ∈ r.Items, F64.nonnegUpTo (2 ^ 63) (ParseFloat item.Price).1 = true)
    (hsum : pointsSum cvt r < 2 ^ 63) :
    0 ≤ calculatePoints cvt r ∧ calculatePoints cvt r = pointsSum cvt r := by
  have h0 := pointsSum_nonneg cvt r hprice
  have he : calculatePoints cvt r = pointsSum cvt r := by
    rw [calculatePoints_eq_wrap_sum]
    exact wrapInt_of_range (by omega) hsum
  exact ⟨he ▸ h0, he⟩

theorem calculatePoints_nonneg_witness :
    0 ≤ calculatePoints cvtAmd64 ⟨"Target", "2022-01-01", "13:01",
      [⟨"Mountain Dew 12PK", "6.49"⟩, ⟨"Emils Cheese Pizza", "12.25"⟩], "35.35"⟩ :=
  (calculatePoints_nonneg cvtAmd64 ⟨"Target", "2022-01-01", "13:01",
      [⟨"Mountain Dew 12PK", "6.49"⟩, ⟨"Emils Cheese Pizza", "12.25"⟩], "35.35"⟩
    (by decide!) (by decide!)).1

/-- C3, as stated, fails: an item with a negative price makes the total
negative.  Retailer "Target" scores 6 and the item "Gum" at "-100.00" scores
`ceil(-100 * 0.2) = -20`. -/
theorem calculatePoints_negative :
    calculatePoints cvtAmd64 ⟨"Target", "2022-01-02", "13:01", [⟨"Gum", "-100.00"⟩], "35.35"⟩
      = -14 := by decide!

/-! ## Parsing a currency amount -/

theorem digitChar_parse (n : Nat) :
    isDigit (digitChar n) = true ∧ digitVal (digitChar n) = n % 10 ∧
    digitChar n ≠ '_' ∧ digitChar n ≠ '.' ∧ digitChar n ≠ '+' ∧ digitChar n ≠ '-' ∧
    lower (digitChar n) ≠ 'i' ∧ lower (digitChar n) ≠ 'n' ∧ lower (digitChar n) ≠ 'x' := by
  unfold digitChar
  have h : n % 10 < 10 := Nat.mod_lt _ (by norm_num)
  generalize n % 10 = k at h
  interval_cases k <;> decide

theorem readMantissa_digits (ds : List Nat) (rest : List Char) (a : Nat) (sd : Bool) :
    readMantissa false (ds.map digitChar ++ rest) ⟨a, 0, false, sd, false⟩
      = readMantissa false rest ⟨digitsValue ds a, 0, false, sd || !ds.isEmpty, false⟩ := by
  induction ds generalizing a sd with
  | nil => simp [digitsValue]
  | cons d ds ih =>
    obtain ⟨h1, h2, h3, h4, _⟩ := digitChar_parse d
    simp only [List.map_cons, List.cons_append]
    rw [readMantissa]
    simp only [h3, h4, h1, h2, if_false, if_true, Bool.false_eq_true]
    rw [ih]
    simp [digitsValue]

theorem readMantissa_cents (f1 f2 a : Nat) (sd : Bool) :
    readMantissa false ['.', digitChar f1, digitChar f2] ⟨a, 0, false, sd, false⟩
      = (⟨(a * 10 + f1 % 10) * 10 + f2 % 10, 2, true, true, false⟩, []) := by
  obtain ⟨a1, a2, a3, a4, _⟩ := digitChar_parse f1
  obtain ⟨b1, b2, b3, b4, _⟩ := digitChar_parse f2
  simp [readMantissa, a1, a2, a3, a4, b1, b2, b3, b4]

theorem special_amount (ds : List Nat) (f1 f2 : Nat) :
    special (amountText ds f1 f2).data = none := by
  cases ds with
  | nil =>
    have h1 : lower '.' ≠ 'i' := by decide
    have h2 : lower '.' ≠ 'n' := by decide
    simp [amountText, special, h1, h2]
  | cons d ds =>
    obtain ⟨_, _, _, _, h5, h6, h7, h8, _⟩ := digitChar_parse d
    simp [amountText, special, h5, h6, h7, h8]

theorem hexPrefix_amount (ds : List Nat) (f1 f2 : Nat) :
    hexPrefix (amountText ds f1 f2).data = false := by
  have hdot : lower '.' ≠ 'x' := by decide
  rcases ds with _ | ⟨d, _ | ⟨e, _ | ⟨g, ds⟩⟩⟩
  · simp [amountText, hexPrefix]
  · simp [amountText, hexPrefix, hdot]
  · have h := (digitChar_parse e).2.2.2.2.2.2.2.2
    simp [amountText, hexPrefix, h]
  · have h := (digitChar_parse e).2.2.2.2.2.2.2.2
    simp [amountText, hexPrefix, h]

theorem readFloat_amount (ds : List Nat) (f1 f2 : Nat) :
    readFloat (amountText ds f1 f2).data
      = some ⟨false, false, amountCents ds f1 f2, 2, 0, [], true⟩ := by
  have hm : readMantissa false (amountText ds f1 f2).data ⟨0, 0, false, false, false⟩
      = (⟨amountCents ds f1 f2, 2, true, true, false⟩, []) := by
    simp only [amountText]
    rw [readMantissa_digits, readMantissa_cents]
    rfl
  have hx := hexPrefix_amount ds f1 f2
  have hne : ∃ c0 t0, (amountText ds f1 f2).data = c0 :: t0 ∧ c0 ≠ '-' ∧ c0 ≠ '+' := by
    cases ds with
    | nil => exact ⟨'.', _, rfl, by decide, by decide⟩
    | cons d ds =>
      obtain ⟨_, _, _, _, h5, h6, _⟩ := digitChar_parse d
      exact ⟨digitChar d, _, rfl, h6, h5⟩
  obtain ⟨c0, t0, hs, hc1, hc2⟩ := hne
  generalize (amountText ds f1 f2).data = s at *
  subst hs
  simp [readFloat, hx, hm, hc1, hc2]

theorem ParseFloat_amount (ds : List Nat) (f1 f2 : Nat) :
    (ParseFloat (amountText ds f1 f2)).1 = F64.ofRat false (amountCents ds f1 f2) 100 := by
  unfold ParseFloat
  rw [special_amount, readFloat_amount]
  simp only [Bool.not_true, Bool.false_or, ne_eq, not_true_eq_false, decide_False,
    Bool.false_eq_true, if_false]
  have hv : F64.ofPow false (amountCents ds f1 f2) 10 (0 - (2 : Nat))
      = F64.ofRat false (amountCents ds f1 f2) 100 := by
    simp [F64.ofPow]
  rw [hv]
  cases F64.ofRat false (amountCents ds f1 f2) 100 <;> rfl

/-! ## Accuracy of rounding -/

theorem roundHalfEven_error (n d : Nat) (hd : 0 < d) :
    2 * (roundHalfEven n d * d) ≤ 2 * n + d ∧ 2 * n ≤ 2 * (roundHalfEven n d * d) + d := by
  have h1 : d * (n / d) + n % d = n := Nat.div_add_mod n d
  have h2 : n % d < d := Nat.mod_lt n hd
  have h3 : n / d * d = d * (n / d) := Nat.mul_comm _ _
  have h4 : (n / d + 1) * d = d * (n / d) + d := by ring
  unfold roundHalfEven
  simp only
  generalize n / d = q at *
  generalize d * q = dq at *
  split_ifs <;> constructor <;> omega

theorem roundHalfEven_unique (n d j : Nat) (h1 : 2 * (j * d) < 2 * n + d)
    (h2 : 2 * n < 2 * (j * d) + d) : roundHalfEven n d = j := by
  have hd : 0 < d := by
    rcases Nat.eq_zero_or_pos d with h | h
    · subst h
      omega
    · exact h
  obtain ⟨e1, e2⟩ := roundHalfEven_error n d hd
  generalize roundHalfEven n d = q at *
  rcases Nat.lt_trichotomy q j with h | h | h
  · exfalso
    have : (q + 1) * d ≤ j * d := Nat.mul_le_mul_right d h
    have e : (q + 1) * d = q * d + d := by ring
    omega
  · exact h
  · exfalso
    have : (j + 1) * d ≤ q * d := Nat.mul_le_mul_right d h
    have e : (j + 1) * d = j * d + d := by ring
    omega

theorem bitLen_le_of_lt (t e : Nat) (h : t < 2 ^ e) : bitLen t ≤ e := by
  by_cases ht : t = 0
  · subst ht
    simp [bitLen_zero]
  · have h1 := (bitLen_spec t ht).1
    have h2 : 2 ^ (bitLen t - 1) < 2 ^ e := lt_of_le_of_lt h1 h
    have h3 := (Nat.pow_lt_pow_iff_right (by norm_num : 1 < 2)).1 h2
    omega

theorem lt_bitLen_of_le (t e : Nat) (h : 2 ^ e ≤ t) : e < bitLen t := by
  have ht : t ≠ 0 := by
    intro h0
    subst h0
    have : 0 < 2 ^ e := by positivity
    omega
  have h1 := (bitLen_spec t ht).2
  exact (Nat.pow_lt_pow_iff_right (by norm_num : 1 < 2)).1 (lt_of_le_of_lt h h1)

/-- Rounding a number of hundredths below `2^47`: the result is finite, and
it lies on a grid of step `W` (a divisor `U / G` of the unit, `G` dividing
100) exactly when the number of hundredths is a multiple of `100 / G`. -/
theorem roundMag_hundredths (c W G g : Nat) (hc : c < 100 * 2 ^ 47)
    (hWG : W * G = F64.scale) (hgG : g * G = 100) (hW : 2 ^ 1068 ∣ W) :
    ∃ m, roundMag (c * F64.scale) 100 = some m ∧ (W ∣ m → g ∣ c) ∧
      (∀ j, c = g * j → m = j * W) := by
  have hU : F64.scale = 2 ^ 1074 := rfl
  have ho : F64.overflow = 2 ^ 2098 := rfl
  have hUpos := scale_pos
  generalize F64.scale = U at *
  have ht : c * U / 100 < 2 ^ 1121 := by
    apply (Nat.div_lt_iff_lt_mul (by norm_num)).2
    have : c * U < 100 * 2 ^ 47 * U := Nat.mul_lt_mul_of_pos_right hc hUpos
    have e : (100 : Nat) * 2 ^ 47 * U = 2 ^ 1121 * 100 := by
      rw [hU]
      norm_num
    omega
  have hs : bitLen (c * U / 100) - 53 ≤ 1068 := by
    have := bitLen_le_of_lt _ _ ht
    omega
  obtain ⟨m0, hm0, hle⟩ := roundMag_isSome_of_small (c * U) 100 (by
    rw [ho]
    have : (2 : Nat) ^ 2098 = 2 ^ 1121 * 2 ^ 977 := by norm_num
    have h2 : (2 : Nat) ^ 1121 * 2 ≤ 2 ^ 1121 * 2 ^ 977 :=
      Nat.mul_le_mul_left _ (by norm_num)
    omega)
  refine ⟨m0, hm0, ?_⟩
  unfold roundMag at hm0
  simp only at hm0
  split_ifs at hm0
  simp only [Option.some.injEq] at hm0
  generalize bitLen (c * U / 100) - 53 = s at *
  obtain ⟨Q', hQ'⟩ : 2 ^ s ∣ 2 ^ 1068 := pow_dvd_pow 2 hs
  obtain ⟨w, hw⟩ := hW
  have hQpos : 0 < 2 ^ s := by positivity
  have hQ'pos : 0 < Q' := by
    rcases Nat.eq_zero_or_pos Q' with h | h
    · subst h
      simp at hQ'
    · exact h
  have hQle : 100 * 2 ^ s < 2 * U := by
    have h1 : 2 ^ s ≤ 2 ^ 1068 := Nat.pow_le_pow_right (by norm_num) hs
    have h2 : 2 * U = 2 ^ 1068 * 128 := by
      rw [hU]
      norm_num
    omega
  generalize 2 ^ s = Q at *
  obtain ⟨e1, e2⟩ := roundHalfEven_error (c * U) (100 * Q) (by positivity)
  subst hm0
  constructor
  · rintro ⟨j, hj⟩
    refine ⟨j, ?_⟩
    have a1 : 2 * (roundHalfEven (c * U) (100 * Q) * (100 * Q))
        = 2 * (g * j) * U := by
      have : roundHalfEven (c * U) (100 * Q) * (100 * Q)
          = 100 * (roundHalfEven (c * U) (100 * Q) * Q) := by ring
      rw [this, hj, ← hgG, ← hWG]
      ring
    rw [a1] at e1 e2
    have b1 : 2 * (g * j) * U < (2 * c + 2) * U := by
      have : (2 * c + 2) * U = 2 * (c * U) + 2 * U := by ring
      omega
    have b2 : 2 * c * U < (2 * (g * j) + 2) * U := by
      have : (2 * (g * j) + 2) * U = 2 * (g * j) * U + 2 * U := by ring
      have : 2 * c * U = 2 * (c * U) := by ring
      omega
    have c1 := Nat.lt_of_mul_lt_mul_right b1
    have c2 := Nat.lt_of_mul_lt_mul_right b2
    omega
  · intro j hj
    have hrhe : roundHalfEven (c * U) (100 * Q) = j * (w * Q') := by
      apply roundHalfEven_unique
      · have : j * (w * Q') * (100 * Q) = c * U := by
          rw [hj, ← hWG, hw, hQ', ← hgG]
          ring
        rw [this]
        have : 0 < 100 * Q := by positivity
        omega
      · have : j * (w * Q') * (100 * Q) = c * U := by
          rw [hj, ← hWG, hw, hQ', ← hgG]
          ring
        rw [this]
        have : 0 < 100 * Q := by positivity
        omega
    rw [hrhe, hw, hQ']
    ring

/-! ## Rules 2 and 3 on a currency amount -/

theorem const025_eq : const025 = F64.fin ((2 ^ 1072 : Nat) : Int) := by decide!

theorem ParseFloat_amount_fin (ds : List Nat) (f1 f2 W G g : Nat)
    (hc : amountCents ds f1 f2 < 100 * 2 ^ 47)
    (hWG : W * G = F64.scale) (hgG : g * G = 100) (hW : 2 ^ 1068 ∣ W) :
    ∃ m : Nat, (ParseFloat (amountText ds f1 f2)).1 = F64.fin (m : Int) ∧
      (W ∣ m ↔ g ∣ amountCents ds f1 f2) := by
  obtain ⟨m, hm, h1, h2⟩ := roundMag_hundredths _ W G g hc hWG hgG hW
  refine ⟨m, ?_, h1, ?_⟩
  · rw [ParseFloat_amount]
    unfold F64.ofRat F64.round
    rw [hm]
    rfl
  · rintro ⟨j, hj⟩
    exact ⟨j, by rw [h2 j hj, Nat.mul_comm]⟩

theorem rule2_amount (ds : List Nat) (f1 f2 : Nat) (p : Int)
    (hc : amountCents ds f1 f2 < 100 * 2 ^ 47) :
    rule2 (ParseFloat (amountText ds f1 f2)).1 p
      = if amountCents ds f1 f2 % 100 = 0 then addInt p 50 else p := by
  obtain ⟨m, hm, hiff⟩ := ParseFloat_amount_fin ds f1 f2 F64.scale 1 100 hc (by simp) (by simp)
    (by rw [F64.scale]; exact pow_dvd_pow 2 (by norm_num))
  rw [hm]
  unfold rule2 F64.Floor F64.eq
  simp only [beq_iff_eq]
  have hs := scale_pos
  generalize F64.scale = U at *
  have key : ((m : Int) = (m : Int) / (U : Int) * (U : Int)) ↔ amountCents ds f1 f2 % 100 = 0 := by
    rw [← Nat.dvd_iff_mod_eq_zero, ← hiff]
    constructor
    · intro h
      have : (U : Int) ∣ (m : Int) := ⟨(m : Int) / U, by rw [mul_comm]; exact h⟩
      exact Int.natCast_dvd_natCast.1 this
    · intro h
      have : (U : Int) ∣ (m : Int) := Int.natCast_dvd_natCast.2 h
      exact (Int.ediv_mul_cancel this).symm
  by_cases hcase : amountCents ds f1 f2 % 100 = 0
  · rw [if_pos (key.2 hcase), if_pos hcase]
  · rw [if_neg (fun h => hcase (key.1 h)), if_neg hcase]

theorem rule3_amount (ds : List Nat) (f1 f2 : Nat) (p : Int)
    (hc : amountCents ds f1 f2 < 100 * 2 ^ 47) :
    rule3 (ParseFloat (amountText ds f1 f2)).1 p
      = if amountCents ds f1 f2 % 25 = 0 then addInt p 25 else p := by
  obtain ⟨m, hm, hiff⟩ := ParseFloat_amount_fin ds f1 f2 (2 ^ 1072) 4 25 hc
    (by rw [F64.scale]; norm_num) (by norm_num) (pow_dvd_pow 2 (by norm_num))
  rw [hm]
  unfold rule3
  rw [const025_eq]
  unfold F64.Mod F64.eq const0
  have hne : ¬ (((2 ^ 1072 : Nat) : Int) = 0) := by
    have : 0 < (2 ^ 1072 : Nat) := by positivity
    omega
  have hnn : ¬ ((m : Int) < 0) := by omega
  simp only [hne, if_false, hnn, Int.natAbs_ofNat, beq_iff_eq]
  have key : (((m % 2 ^ 1072 : Nat) : Int) = 0) ↔ amountCents ds f1 f2 % 25 = 0 := by
    rw [← Nat.dvd_iff_mod_eq_zero, ← hiff, Nat.dvd_iff_mod_eq_zero]
    exact Int.natCast_eq_zero
  by_cases hcase : amountCents ds f1 f2 % 25 = 0
  · rw [if_pos (key.2 hcase), if_pos hcase]
  · rw [if_neg (fun h => hcase (key.1 h)), if_neg hcase]

/-- C5: the quarter-total rule on a currency amount `d...d.dd`.  Below
`2^47` units the rule adds 25 exactly when the number of cents is a multiple
of 25 ("35.00" gives 25, "35.35" gives 0).  At `140737488355328.26` the
float64 nearest to the total is `140737488355328.25`, and the rule adds 25
for a total that is not a multiple of 0.25. -/
theorem rule3_quarter_total :
    (∀ (ds : List Nat) (f1 f2 : Nat) (p : Int), amountCents ds f1 f2 < 100 * 2 ^ 47 →
      rule3 (ParseFloat (amountText ds f1 f2)).1 p
        = if amountCents ds f1 f2 % 25 = 0 then addInt p 25 else p) ∧
    rule3 (ParseFloat "35.00").1 0 = 25 ∧
    rule3 (ParseFloat "35.35").1 0 = 0 ∧
    "140737488355328.26" = amountText [1, 4, 0, 7, 3, 7, 4, 8, 8, 3, 5, 5, 3, 2, 8] 2 6 ∧
    amountCents [1, 4, 0, 7, 3, 7, 4, 8, 8, 3, 5, 5, 3, 2, 8] 2 6 % 25 ≠ 0 ∧
    rule3 (ParseFloat "140737488355328.26").1 0 = 25 :=
  ⟨rule3_amount, by decide!, by decide!, by decide!, by decide!, by decide!⟩

/-- C6: the round-total rule on a currency amount `d...d.dd`.  Below `2^47`
units the rule adds 50 exactly when the cents are `00` ("35.00" gives 50,
"35.35" gives 0).  At `140737488355328.01` the float64 nearest to the total
is the integer `140737488355328`, and the rule adds 50 for a total whose
fractional part is not zero. -/
theorem rule2_round_total :
    (∀ (ds : List Nat) (f1 f2 : Nat) (p : Int), amountCents ds f1 f2 < 100 * 2 ^ 47 →
      rule2 (ParseFloat (amountText ds f1 f2)).1 p
        = if amountCents ds f1 f2 % 100 = 0 then addInt p 50 else p) ∧
    rule2 (ParseFloat "35.00").1 0 = 50 ∧
    rule2 (ParseFloat "35.35").1 0 = 0 ∧
    "140737488355328.01" = amountText [1, 4, 0, 7, 3, 7, 4, 8, 8, 3, 5, 5, 3, 2, 8] 0 1 ∧
    amountCents [1, 4, 0, 7, 3, 7, 4, 8, 8, 3, 5, 5, 3, 2, 8] 0 1 % 100 ≠ 0 ∧
    rule2 (ParseFloat "140737488355328.01").1 0 = 50 :=
  ⟨rule2_amount, by decide!, by decide!, by decide!, by decide!, by decide!⟩

/-! ## The product `price * 0.2` of a currency amount -/

theorem roundMag_error (n d m : Nat) (hd : 0 < d) (h : roundMag n d = some m) :
    2 * (m * d) ≤ 2 * n + d * 2 ^ (bitLen (n / d) - 53) ∧
    2 * n ≤ 2 * (m * d) + d * 2 ^ (bitLen (n / d) - 53) := by
  unfold roundMag at h
  simp only at h
  split_ifs at h
  simp only [Option.some.injEq] at h
  subst h
  generalize bitLen (n / d) - 53 = s
  have hpos : 0 < d * 2 ^ s := by positivity
  obtain ⟨e1, e2⟩ := roundHalfEven_error n (d * 2 ^ s) hpos
  have e : roundHalfEven n (d * 2 ^ s) * 2 ^ s * d
      = roundHalfEven n (d * 2 ^ s) * (d * 2 ^ s) := by ring
  rw [e]
  exact ⟨e1, e2⟩

theorem roundMag_of_close (n d v j : Nat) (hv : v = j * 2 ^ (bitLen (n / d) - 53))
    (hlt : v < F64.overflow)
    (h1 : 2 * (v * d) < 2 * n + d * 2 ^ (bitLen (n / d) - 53))
    (h2 : 2 * n < 2 * (v * d) + d * 2 ^ (bitLen (n / d) - 53)) :
    roundMag n d = some v := by
  unfold roundMag
  simp only
  generalize bitLen (n / d) - 53 = s at *
  have e : v * d = j * (d * 2 ^ s) := by
    rw [hv]
    ring
  rw [e] at h1 h2
  rw [roundHalfEven_unique n (d * 2 ^ s) j h1 h2, ← hv, if_pos hlt]

theorem scale_eq_mul : F64.scale = 2 ^ 54 * 2 ^ 1020 := by
  rw [F64.scale, ← pow_add]

theorem shift_le (t e : Nat) (h : t < 2 ^ (e + 53)) : bitLen t - 53 ≤ e := by
  have := bitLen_le_of_lt t (e + 53) h
  omega

/-- The two roundings of `price * 0.2` stay strictly inside the interval
between consecutive integers that holds the exact fifth of the price. -/
theorem product_between (c n0 k m : Nat) (hc : c < 2 ^ 49) (hlo : 500 * n0 + 1 ≤ c)
    (hhi : c ≤ 500 * n0 + 499) (hk : roundMag (c * F64.scale) 100 = some k)
    (hm : roundMag (k * const02Units) F64.scale = some m) :
    n0 * F64.scale < m ∧ m ≤ (n0 + 1) * F64.scale := by
  have hUA := scale_eq_mul
  have hCA : const02Units = 3602879701896397 * 2 ^ 1020 := rfl
  have hUpos := scale_pos
  obtain ⟨f1, f1'⟩ := roundMag_error _ _ _ (by norm_num) hk
  obtain ⟨f2, f2'⟩ := roundMag_error _ _ _ hUpos hm
  have p1064 : (2 : Nat) ^ 1064 = 2 ^ 44 * 2 ^ 1020 := by rw [← pow_add]
  have p1063 : (2 : Nat) ^ 1063 = 2 ^ 43 * 2 ^ 1020 := by rw [← pow_add]
  have p1117 : (2 : Nat) ^ (1064 + 53) = 2 ^ 97 * 2 ^ 1020 := by rw [← pow_add]
  have p1116 : (2 : Nat) ^ (1063 + 53) = 2 ^ 96 * 2 ^ 1020 := by rw [← pow_add]
  have hApos : 0 < (2 : Nat) ^ 1020 := by positivity
  generalize F64.scale = U at *
  generalize const02Units = C at *
  generalize (2 : Nat) ^ 1020 = A at *
  subst hUA hCA
  -- products with `A` as atoms
  have ecA : c * (2 ^ 54 * A) = 2 ^ 54 * (c * A) := by ring
  have hcA : c * A < 2 ^ 49 * A := Nat.mul_lt_mul_of_pos_right hc hApos
  have hloA : (500 * n0 + 1) * A ≤ c * A := Nat.mul_le_mul_right A hlo
  have hhiA : c * A ≤ (500 * n0 + 499) * A := Nat.mul_le_mul_right A hhi
  have eloA : (500 * n0 + 1) * A = 500 * (n0 * A) + A := by ring
  have ehiA : (500 * n0 + 499) * A = 500 * (n0 * A) + 499 * A := by ring
  rw [eloA] at hloA
  rw [ehiA] at hhiA
  -- the first rounding keeps at least 53 bits below `2^1117`
  have ht1 : c * (2 ^ 54 * A) / 100 < 2 ^ (1064 + 53) := by
    apply (Nat.div_lt_iff_lt_mul (by norm_num)).2
    rw [p1117, ecA]
    generalize c * A = cA at *
    omega
  have hs1 := shift_le _ _ ht1
  have hQ1 : 2 ^ (bitLen (c * (2 ^ 54 * A) / 100) - 53) ≤ 2 ^ 44 * A := by
    rw [← p1064]
    exact Nat.pow_le_pow_right (by norm_num) hs1
  generalize 2 ^ (bitLen (c * (2 ^ 54 * A) / 100) - 53) = Q1 at *
  rw [ecA] at f1 f1'
  -- the second rounding keeps at least 53 bits below `2^1116`
  have hkC : k * 3602879701896397 < 2 ^ 150 * A := by
    generalize c * A = cA at *
    omega
  have ht2 : k * (3602879701896397 * A) / (2 ^ 54 * A) < 2 ^ (1063 + 53) := by
    apply (Nat.div_lt_iff_lt_mul hUpos).2
    rw [p1116]
    have e1 : k * (3602879701896397 * A) = k * 3602879701896397 * A := by ring
    have e2 : 2 ^ 96 * A * (2 ^ 54 * A) = 2 ^ 150 * A * A := by ring
    rw [e1, e2]
    exact Nat.mul_lt_mul_of_pos_right hkC hApos
  have hs2 := shift_le _ _ ht2
  have hQ2 : 2 ^ (bitLen (k * (3602879701896397 * A) / (2 ^ 54 * A)) - 53) ≤ 2 ^ 43 * A := by
    rw [← p1063]
    exact Nat.pow_le_pow_right (by norm_num) hs2
  generalize 2 ^ (bitLen (k * (3602879701896397 * A) / (2 ^ 54 * A)) - 53) = Q2 at *
  -- cancel `A` in the error bounds of the second rounding
  have g2 : 2 ^ 55 * m ≤ 2 * 3602879701896397 * k + 2 ^ 54 * Q2 := by
    apply Nat.le_of_mul_le_mul_right _ hApos
    calc 2 ^ 55 * m * A = 2 * (m * (2 ^ 54 * A)) := by ring
      _ ≤ 2 * (k * (3602879701896397 * A)) + 2 ^ 54 * A * Q2 := f2
      _ = (2 * 3602879701896397 * k + 2 ^ 54 * Q2) * A := by ring
  have g2' : 2 * 3602879701896397 * k ≤ 2 ^ 55 * m + 2 ^ 54 * Q2 := by
    apply Nat.le_of_mul_le_mul_right _ hApos
    calc 2 * 3602879701896397 * k * A = 2 * (k * (3602879701896397 * A)) := by ring
      _ ≤ 2 * (m * (2 ^ 54 * A)) + 2 ^ 54 * A * Q2 := f2'
      _ = (2 ^ 55 * m + 2 ^ 54 * Q2) * A := by ring
  have en0 : n0 * (2 ^ 54 * A) = 2 ^ 54 * (n0 * A) := by ring
  have en1 : (n0 + 1) * (2 ^ 54 * A) = 2 ^ 54 * (n0 * A) + 2 ^ 54 * A := by ring
  rw [en0, en1]
  generalize c * A = cA at *
  generalize n0 * A = nA at *
  constructor <;> omega

theorem product_exact (n : Nat) (hn : n < 2 ^ 41) :
    roundMag (5 * n * F64.scale * const02Units) F64.scale = some (n * F64.scale) := by
  have hUA := scale_eq_mul
  have hCA : const02Units = 3602879701896397 * 2 ^ 1020 := rfl
  have hUpos := scale_pos
  have ho := overflow_eq
  have hU : F64.scale = 2 ^ 1074 := rfl
  have p1021 : (2 : Nat) ^ 1021 = 2 * 2 ^ 1020 := by rw [← pow_succ']
  have hApos : 0 < (2 : Nat) ^ 1020 := by positivity
  generalize F64.scale = U at *
  generalize const02Units = C at *
  generalize (2 : Nat) ^ 1020 = A at *
  have hprod : 5 * n * U * C = n * (U + A) * U := by
    rw [hUA, hCA]
    ring
  have hquot : 5 * n * U * C / U = n * (U + A) := by
    rw [hprod]
    exact Nat.mul_div_cancel _ hUpos
  -- the quantum of the product
  have hAU : A ≤ U := by
    rw [hUA]
    exact Nat.le_mul_of_pos_left _ (by norm_num)
  have ht : n * (U + A) < 2 ^ (1074 + 53) := by
    have h1 : n * (U + A) ≤ n * (2 * U) := Nat.mul_le_mul_left _ (by omega)
    have h2 : n * (2 * U) < 2 ^ 41 * (2 * U) :=
      Nat.mul_lt_mul_of_pos_right hn (by omega)
    have h3 : (2 : Nat) ^ 41 * (2 * U) ≤ 2 ^ (1074 + 53) := by
      rw [hU, ← pow_succ', ← pow_add]
      exact Nat.pow_le_pow_right (by norm_num) (by norm_num)
    omega
  have hs := shift_le _ _ ht
  have hbig : 2 * (n * A) < 2 ^ (bitLen (n * (U + A)) - 53) := by
    by_cases hn0 : n = 0
    · subst hn0
      simp
    · obtain ⟨l, u⟩ := bitLen_spec n hn0
      have h1 : 2 ^ (bitLen n - 1 + 1074) ≤ n * (U + A) := by
        rw [pow_add, ← hU]
        calc 2 ^ (bitLen n - 1) * U ≤ n * U := Nat.mul_le_mul_right _ l
          _ ≤ n * (U + A) := Nat.mul_le_mul_left _ (by omega)
      have h2 := lt_bitLen_of_le _ _ h1
      have hb : bitLen n ≠ 0 := by
        intro h0
        rw [h0] at u
        omega
      have h3 : bitLen n + 1021 ≤ bitLen (n * (U + A)) - 53 := by
        clear hU hUA hCA p1021 ho hs ht h1
        omega
      calc 2 * (n * A) = n * 2 ^ 1021 := by
            rw [p1021]
            ring
        _ < 2 ^ bitLen n * 2 ^ 1021 := Nat.mul_lt_mul_of_pos_right u (by positivity)
        _ = 2 ^ (bitLen n + 1021) := by rw [← pow_add]
        _ ≤ 2 ^ (bitLen (n * (U + A)) - 53) := Nat.pow_le_pow_right (by norm_num) h3
  have hsplit : ∀ s, s ≤ 1074 → 2 ^ (1074 - s) * 2 ^ s = U := by
    intro s hs
    rw [← pow_add, hU]
    congr 1
    omega
  apply roundMag_of_close _ _ _ (n * 2 ^ (1074 - (bitLen (5 * n * U * C / U) - 53)))
  · rw [hquot, Nat.mul_assoc, hsplit _ hs]
  · rw [ho]
    exact Nat.mul_lt_mul_of_pos_right
      (lt_of_lt_of_le hn (Nat.pow_le_pow_right (by norm_num) (by norm_num))) hUpos
  · rw [hquot, hprod]
    generalize 2 ^ (bitLen (n * (U + A)) - 53) = Q at *
    have hQ : 0 < U * Q := Nat.mul_pos hUpos (by omega)
    have e : n * (U + A) * U = n * U * U + n * A * U := by ring
    rw [e]
    omega
  · rw [hquot, hprod]
    generalize 2 ^ (bitLen (n * (U + A)) - 53) = Q at *
    have hQ : 2 * (n * A) * U < Q * U := Nat.mul_lt_mul_of_pos_right hbig hUpos
    have e : n * (U + A) * U = n * U * U + n * A * U := by ring
    have e2 : 2 * (n * A) * U = 2 * (n * A * U) := by ring
    have e3 : U * Q = Q * U := Nat.mul_comm _ _
    rw [e, e3]
    omega

theorem ceil_div_of_between (m n0 U : Nat) (hU : 0 < U) (h1 : n0 * U < m)
    (h2 : m ≤ (n0 + 1) * U) : (m + U - 1) / U = n0 + 1 := by
  have e1 : (n0 + 1) * U = n0 * U + U := by ring
  have e2 : (n0 + 1 + 1) * U = n0 * U + U + U := by ring
  rw [e1] at h2
  apply Nat.div_eq_of_lt_le
  · rw [e1]
    generalize n0 * U = x at *
    omega
  · show m + U - 1 < (n0 + 1 + 1) * U
    rw [e2]
    generalize n0 * U = x at *
    omega

/-- What `int(math.Ceil(price * 0.2))` gives for the float64 nearest to a
price of `c` cents, `c < 2^49`: the exact ceiling of `c / 500`. -/
theorem toInt_Ceil_mul_hundredths (cvt : F64 → Int) (c : Nat) (hc : c < 2 ^ 49) :
    F64.toInt cvt (F64.Ceil (F64.mul (F64.ofRat false c 100) const02))
      = (((c + 499) / 500 : Nat) : Int) := by
  obtain ⟨k, hk, _, hexact⟩ := roundMag_hundredths c F64.scale 1 100
    (lt_of_lt_of_le hc (by norm_num)) (by simp) (by simp)
    (by rw [F64.scale]; exact pow_dvd_pow 2 (by norm_num))
  have hprice : F64.ofRat false c 100 = F64.fin (k : Int) := by
    unfold F64.ofRat F64.round
    rw [hk]
    rfl
  rw [hprice, const02_eq, mul_fin_nonneg]
  have hUpos := scale_pos
  by_cases h500 : c % 500 = 0
  · have hc500 : c = 500 * (c / 500) := by omega
    have hk5 : k = 5 * (c / 500) * F64.scale := hexact (5 * (c / 500)) (by omega)
    have hn : c / 500 < 2 ^ 41 := by omega
    have hm := product_exact (c / 500) hn
    rw [← hk5] at hm
    unfold F64.round
    rw [hm]
    show F64.toInt cvt (F64.Ceil (F64.fin (((c / 500 * F64.scale : Nat) : Int)))) = _
    rw [toInt_Ceil_fin_nonneg]
    · have e : (c / 500 * F64.scale + F64.scale - 1) / F64.scale = c / 500 := by
        apply Nat.div_eq_of_lt_le
        · omega
        · rw [Nat.succ_mul]
          omega
      rw [e]
      congr 1
      omega
    · have : c / 500 * F64.scale ≤ 2 ^ 62 * F64.scale :=
        Nat.mul_le_mul_right _ (by omega)
      omega
  · have herr := roundMag_error _ _ _ (by norm_num : 0 < 100) hk
    have hkle : k ≤ 2 ^ 63 * F64.scale := by
      have h1 := roundMag_le _ _ _ hk
      have h2 : c * F64.scale / 100 ≤ c * F64.scale := Nat.div_le_self _ _
      have h3 : c * F64.scale ≤ 2 ^ 49 * F64.scale := Nat.mul_le_mul_right _ (le_of_lt hc)
      have h4 : (2 : Nat) ^ 63 * F64.scale = 2 ^ 14 * (2 ^ 49 * F64.scale) := by ring
      omega
    obtain ⟨m, hm, hmle⟩ := mul_const02_of_nonneg k hkle
    rw [const02_eq, mul_fin_nonneg] at hm
    have hm' : roundMag (k * const02Units) F64.scale = some m := by
      unfold F64.round at hm
      cases hr : roundMag (k * const02Units) F64.scale with
      | none => rw [hr] at hm; simp at hm
      | some m' =>
        rw [hr] at hm
        simp only [Bool.false_eq_true, if_false, F64.fin.injEq, Nat.cast_inj] at hm
        rw [hm]
    obtain ⟨b1, b2⟩ := product_between c (c / 500) k m hc (by omega) (by omega) hk hm'
    unfold F64.round
    rw [hm']
    show F64.toInt cvt (F64.Ceil (F64.fin ((m : Nat) : Int))) = _
    rw [toInt_Ceil_fin_nonneg cvt m hmle, ceil_div_of_between m (c / 500) _ hUpos b1 b2]
    congr 1
    omega

/-! ## Rule 5 -/

theorem itemPoints_amount (cvt : F64 → Int) (item : Item) (ds : List Nat) (f1 f2 : Nat)
    (hp : item.Price = amountText ds f1 f2) (hc : amountCents ds f1 f2 < 2 ^ 49) :
    itemPoints cvt item
      = if len (TrimSpace item.ShortDescription.data) % 3 = 0 then
          (((amountCents ds f1 f2 + 499) / 500 : Nat) : Int)
        else 0 := by
  unfold itemPoints
  rw [hp, ParseFloat_amount, toInt_Ceil_mul_hundredths cvt _ hc]

theorem TrimSpace_of_spaces (s : List Char) (h : ∀ c ∈ s, IsSpace c = true) :
    TrimSpace s = [] := by
  have : s.dropWhile IsSpace = [] := List.dropWhile_eq_nil_iff.2 h
  simp [TrimSpace, this]

/-- C7, amended: the description rule looks at the length in bytes of the
UTF-8 encoding of the trimmed description.  For items priced `d...d.dd` below
`2^49` cents, an item whose trimmed description has a byte length that is a
multiple of 3 (an empty or all-space description included) adds the exact
`ceil(price * 0.2)`, every other item adds nothing, and the rule adds the sum
of these amounts over the item list. -/
theorem rule5_description (cvt : F64 → Int) (r : Receipt) (points : Int) (cents : Item → Nat)
    (h : ∀ item ∈ r.Items, ∃ ds f1 f2, item.Price = amountText ds f1 f2 ∧
      amountCents ds f1 f2 = cents item ∧ cents item < 2 ^ 49) :
    rule5 cvt r (wrapInt points)
      = wrapInt (points + (r.Items.map fun item =>
          if len (TrimSpace item.ShortDescription.data) % 3 = 0 then
            (((cents item + 499) / 500 : Nat) : Int)
          else 0).sum) ∧
    ∀ s : List Char, (∀ c ∈ s, IsSpace c = true) → len (TrimSpace s) % 3 = 0 := by
  constructor
  · unfold rule5
    rw [foldl_rule5Item]
    congr 3
    apply List.map_congr_left
    intro item hi
    obtain ⟨ds, f1, f2, hp, hcents, hlt⟩ := h item hi
    rw [← hcents] at hlt ⊢
    exact itemPoints_amount cvt item ds f1 f2 hp hlt
  · intro s hs
    rw [TrimSpace_of_spaces s hs]
    rfl

theorem rule5_description_witness :
    rule5 cvtAmd64 ⟨"Target", "2022-01-01", "13:01", [⟨"Emils Cheese Pizza", "12.25"⟩], "35.35"⟩
      (wrapInt 0) = 3 :=
  (rule5_description cvtAmd64
    ⟨"Target", "2022-01-01", "13:01", [⟨"Emils Cheese Pizza", "12.25"⟩], "35.35"⟩ 0
    (fun _ => 1225)
    (by
      intro item hi
      simp only [List.mem_singleton] at hi
      subst hi
      exact ⟨[1, 2], 2, 5, by decide, by decide, by decide⟩)).1.trans (by decide)

/-- C7, as stated, fails: "Jalapeño" has 8 characters, not a multiple of 3,
but 9 bytes, and the rule adds `ceil(5.00 * 0.2) = 1` for it. -/
theorem rule5_counts_bytes :
    (TrimSpace "Jalapeño".data).length = 8 ∧
    len (TrimSpace "Jalapeño".data) = 9 ∧
    rule5 cvtAmd64 ⟨"Target", "2022-01-01", "13:01", [⟨"Jalapeño", "5.00"⟩], "5.00"⟩ 0 = 1 := by
  decide!

/-! ## Sequences of requests -/

theorem getPoints_store (id : String) (st : Store) : (getPoints id st).2 = st := by
  unfold getPoints
  cases st.points id <;> rfl

theorem run_of_not_drawn (cvt : F64 → Int) (ops : List Op) (st : Store) (id : String)
    (h : id ∉ drawn ops) :
    (run cvt ops st).points id = st.points id ∧
    (run cvt ops st).receipts id = st.receipts id := by
  induction ops generalizing st with
  | nil => exact ⟨rfl, rfl⟩
  | cons op ops ih =>
    cases op with
    | lookup j =>
      simp only [drawn] at h
      simp only [run, step, getPoints_store]
      exact ih st h
    | process decoded j =>
      cases decoded with
      | error err =>
        simp only [drawn] at h
        simp only [run, step, processReceipt]
        exact ih st h
      | ok receipt =>
        simp only [drawn, List.mem_cons, not_or] at h
        simp only [run, step, processReceipt]
        obtain ⟨h1, h2⟩ := ih _ h.2
        rw [h1, h2]
        simp [GoMap.set, h.1]

theorem step_consistent (cvt : F64 → Int) (op : Op) (st : Store)
    (h : st.consistent cvt) : (step cvt op st).2.consistent cvt := by
  cases op with
  | lookup j =>
    simp only [step, getPoints_store]
    exact h
  | process decoded j =>
    cases decoded with
    | error err => exact h
    | ok receipt =>
      intro id
      simp only [step, processReceipt, GoMap.set]
      by_cases hid : id = j
      · simp [hid]
      · simp only [hid, if_false]
        exact h id

theorem run_consistent (cvt : F64 → Int) (ops : List Op) (st : Store)
    (h : st.consistent cvt) : (run cvt ops st).consistent cvt := by
  induction ops generalizing st with
  | nil => exact h
  | cons op ops ih => exact ih _ (step_consistent cvt op st h)

/-- C13: when the body cannot be decoded, `processReceipt` answers 400 with
the decode error, returns no identifier, and leaves both maps of the store
exactly as they were. -/
theorem processReceipt_decode_error (cvt : F64 → Int) (err id : String) (st : Store) :
    processReceipt cvt (Except.error err) id st = (⟨StatusBadRequest, Body.Error err⟩, st) ∧
    (∀ j, (processReceipt cvt (Except.error err) id st).1.body ≠ Body.ProcessResponse j) ∧
    (processReceipt cvt (Except.error err) id st).2.receipts = st.receipts ∧
    (processReceipt cvt (Except.error err) id st).2.points = st.points ∧
    drawn [Op.process (Except.error err) id] = [] := by
  refine ⟨rfl, ?_, rfl, rfl, rfl⟩
  intro j
  simp [processReceipt]

/-- C20: in every store reached from the empty store by `processReceipt` and
`getPoints` requests, the receipts map and the points map have the same keys,
and the total kept under each key is `calculatePoints` of the receipt kept
under it. -/
theorem reachable_store_consistent (cvt : F64 → Int) (ops : List Op) (id : String) :
    ((run cvt ops Store.init).receipts id).isSome = ((run cvt ops Store.init).points id).isSome ∧
    ∀ r, (run cvt ops Store.init).receipts id = some r →
      (run cvt ops Store.init).points id = some (calculatePoints cvt r) := by
  have h0 : Store.init.consistent cvt := by
    intro j
    exact ⟨rfl, fun r hr => by simp [Store.init, GoMap.make] at hr⟩
  exact run_consistent cvt ops Store.init h0 id

/-- C12, amended: once `processReceipt` has issued `id` for a receipt `r`,
after every later sequence of `processReceipt` and `getPoints` requests in
which `uuid.New()` does not draw `id` again, `getPoints` of `id` still answers
with `calculatePoints r`; `getPoints` never modifies the store, and a
`processReceipt` call that draws another identifier leaves the entry of `id`
as it is. -/
theorem issued_total_kept (cvt : F64 → Int) (st : Store) (r : Receipt) (id : String)
    (later : List Op) (h : id ∉ drawn later) :
    getPoints id (run cvt later (processReceipt cvt (Except.ok r) id st).2)
      = (⟨StatusOK, Body.PointsResponse (calculatePoints cvt r)⟩,
          run cvt later (processReceipt cvt (Except.ok r) id st).2) ∧
    (∀ (j : String) (s : Store), (getPoints j s).2 = s) ∧
    (∀ (decoded : Except String Receipt) (j : String) (s : Store), j ≠ id →
      (processReceipt cvt decoded j s).2.points id = s.points id) := by
  refine ⟨?_, getPoints_store, ?_⟩
  · have hp := (run_of_not_drawn cvt later (processReceipt cvt (Except.ok r) id st).2 id h).1
    have h0 : (processReceipt cvt (Except.ok r) id st).2.points id
        = some (calculatePoints cvt r) := by
      simp [processReceipt, GoMap.set]
    rw [h0] at hp
    simp [getPoints, hp]
  · intro decoded j s hj
    cases decoded with
    | error err => rfl
    | ok receipt =>
      have : ¬ id = j := fun e => hj e.symm
      simp [processReceipt, GoMap.set, this]

theorem issued_total_kept_witness :
    (getPoints "7fb1377b-b223-49d9-a31a-5a02701dd310"
      (run cvtAmd64
        [Op.lookup "7fb1377b-b223-49d9-a31a-5a02701dd310",
         Op.process (Except.ok ⟨"M&M Corner Market", "2022-03-20", "14:33", [], "9.00"⟩)
           "adb6b560-0eef-42bc-9d16-df48f30e89b2",
         Op.lookup "adb6b560-0eef-42bc-9d16-df48f30e89b2"]
        (processReceipt cvtAmd64
          (Except.ok ⟨"Target", "2022-01-01", "13:01", [], "35.35"⟩)
          "7fb1377b-b223-49d9-a31a-5a02701dd310" Store.init).2)).1
      = ⟨StatusOK, Body.PointsResponse 12⟩ :=
  (congrArg Prod.fst (issued_total_kept cvtAmd64 Store.init
    ⟨"Target", "2022-01-01", "13:01", [], "35.35"⟩ "7fb1377b-b223-49d9-a31a-5a02701dd310"
    [Op.lookup "7fb1377b-b223-49d9-a31a-5a02701dd310",
     Op.process (Except.ok ⟨"M&M Corner Market", "2022-03-20", "14:33", [], "9.00"⟩)
       "adb6b560-0eef-42bc-9d16-df48f30e89b2",
     Op.lookup "adb6b560-0eef-42bc-9d16-df48f30e89b2"] (by decide)).1).trans (by decide!)

/-- C12, as stated, fails: when a later `processReceipt` call draws the
identifier again, the total recorded under it changes from 12 to 99. -/
theorem issued_total_overwritten :
    (getPoints "7fb1377b-b223-49d9-a31a-5a02701dd310"
      (processReceipt cvtAmd64
        (Except.ok ⟨"Target", "2022-01-01", "13:01", [], "35.35"⟩)
        "7fb1377b-b223-49d9-a31a-5a02701dd310" Store.init).2).1
      = ⟨StatusOK, Body.PointsResponse 12⟩ ∧
    (getPoints "7fb1377b-b223-49d9-a31a-5a02701dd310"
      (run cvtAmd64
        [Op.process (Except.ok ⟨"M&M Corner Market", "2022-03-20", "14:33", [], "9.00"⟩)
          "7fb1377b-b223-49d9-a31a-5a02701dd310"]
        (processReceipt cvtAmd64
          (Except.ok ⟨"Target", "2022-01-01", "13:01", [], "35.35"⟩)
          "7fb1377b-b223-49d9-a31a-5a02701dd310" Store.init).2)).1
      = ⟨StatusOK, Body.PointsResponse 99⟩ := by
  decide!

/-- C14, amended: in every store reached from the empty store, when
`uuid.New()` draws a value it has not drawn before in the run, the identifier
that `processReceipt` returns is not yet a key of either map. -/
theorem fresh_identifier_not_a_key (cvt : F64 → Int) (ops : List Op) (r : Receipt)
    (id : String) (h : id ∉ drawn ops) :
    (processReceipt cvt (Except.ok r) id (run cvt ops Store.init)).1
      = ⟨StatusOK, Body.ProcessResponse id⟩ ∧
    (run cvt ops Store.init).points id = none ∧
    (run cvt ops Store.init).receipts id = none := by
  obtain ⟨h1, h2⟩ := run_of_not_drawn cvt ops Store.init id h
  exact ⟨rfl, h1, h2⟩

theorem fresh_identifier_not_a_key_witness :
    (run cvtAmd64
      [Op.process (Except.ok ⟨"Target", "2022-01-01", "13:01", [], "35.35"⟩)
        "7fb1377b-b223-49d9-a31a-5a02701dd310",
       Op.lookup "7fb1377b-b223-49d9-a31a-5a02701dd310"]
      Store.init).points "adb6b560-0eef-42bc-9d16-df48f30e89b2" = none :=
  (fresh_identifier_not_a_key cvtAmd64
    [Op.process (Except.ok ⟨"Target", "2022-01-01", "13:01", [], "35.35"⟩)
      "7fb1377b-b223-49d9-a31a-5a02701dd310",
     Op.lookup "7fb1377b-b223-49d9-a31a-5a02701dd310"]
    ⟨"M&M Corner Market", "2022-03-20", "14:33", [], "9.00"⟩
    "adb6b560-0eef-42bc-9d16-df48f30e89b2" (by decide)).2.1

/-- C14, as stated, fails: the code returns whatever `uuid.New()` draws
without looking at the store, so a value drawn a second time is returned
although it is a key of both maps. -/
theorem repeated_identifier_returned :
    (run cvtAmd64
      [Op.process (Except.ok ⟨"Target", "2022-01-01", "13:01", [], "35.35"⟩)
        "3f2a8c1e-5b7d-4e9a-8c6f-1d2e3f4a5b6c"]
      Store.init).points "3f2a8c1e-5b7d-4e9a-8c6f-1d2e3f4a5b6c" = some 12 ∧
    (processReceipt cvtAmd64
      (Except.ok ⟨"Walgreens", "2022-01-02", "08:13", [], "2.65"⟩)
      "3f2a8c1e-5b7d-4e9a-8c6f-1d2e3f4a5b6c"
      (run cvtAmd64
        [Op.process (Except.ok ⟨"Target", "2022-01-01", "13:01", [], "35.35"⟩)
          "3f2a8c1e-5b7d-4e9a-8c6f-1d2e3f4a5b6c"]
        Store.init)).1
      = ⟨StatusOK, Body.ProcessResponse "3f2a8c1e-5b7d-4e9a-8c6f-1d2e3f4a5b6c"⟩ := by
  decide!

theorem pointsSum_eq (cvt : F64 → Int) (r : Receipt) :
    pointsSum cvt r = retailerPoints r + roundTotalPoints r + quarterTotalPoints r
      + itemPairPoints r + descriptionPoints cvt r + oddDayPoints r + afternoonPoints r :=
  rfl

/-- C11, amended: `calculatePoints` is the sum of the seven amounts, each a
function of the receipt alone, reduced modulo `2^64` to the range of an
`int`; it is the sum itself whenever the sum lies in that range.  Each
amount is what its rule adds to the running total. -/
theorem calculatePoints_sum (cvt : F64 → Int) (r : Receipt) :
    calculatePoints cvt r
      = wrapInt (retailerPoints r + roundTotalPoints r + quarterTotalPoints r
          + itemPairPoints r + descriptionPoints cvt r + oddDayPoints r + afternoonPoints r) ∧
    (-(2 ^ 63) ≤ retailerPoints r + roundTotalPoints r + quarterTotalPoints r
          + itemPairPoints r + descriptionPoints cvt r + oddDayPoints r + afternoonPoints r →
      retailerPoints r + roundTotalPoints r + quarterTotalPoints r
          + itemPairPoints r + descriptionPoints cvt r + oddDayPoints r + afternoonPoints r
        < 2 ^ 63 →
      calculatePoints cvt r
        = retailerPoints r + roundTotalPoints r + quarterTotalPoints r
          + itemPairPoints r + descriptionPoints cvt r + oddDayPoints r + afternoonPoints r) ∧
    (∀ p : Int,
      rule1 r (wrapInt p) = wrapInt (p + retailerPoints r) ∧
      rule2 (ParseFloat r.Total).1 (wrapInt p) = wrapInt (p + roundTotalPoints r) ∧
      rule3 (ParseFloat r.Total).1 (wrapInt p) = wrapInt (p + quarterTotalPoints r) ∧
      rule4 r (wrapInt p) = wrapInt (p + itemPairPoints r) ∧
      rule5 cvt r (wrapInt p) = wrapInt (p + descriptionPoints cvt r) ∧
      rule6 r (wrapInt p) = wrapInt (p + oddDayPoints r) ∧
      rule7 r (wrapInt p) = wrapInt (p + afternoonPoints r)) := by
  have hs := calculatePoints_eq_wrap_sum cvt r
  rw [pointsSum_eq] at hs
  refine ⟨hs, ?_, ?_⟩
  · intro h0 h1
    rw [hs]
    exact wrapInt_of_range h0 h1
  · intro p
    refine ⟨?_, ?_, ?_, ?_, ?_, ?_, ?_⟩
    · exact wrapInt_add_wrapInt _ _
    · exact ite_addInt_wrap _ _ _
    · exact ite_addInt_wrap _ _ _
    · exact wrapInt_add_wrapInt _ _
    · exact foldl_rule5Item cvt r.Items p
    · exact ite_addInt_wrap _ _ _
    · exact ite_addInt_wrap _ _ _

theorem calculatePoints_sum_witness :
    retailerPoints ⟨"Target", "2022-01-01", "13:01",
      [⟨"Mountain Dew 12PK", "6.49"⟩, ⟨"Emils Cheese Pizza", "12.25"⟩], "35.35"⟩ = 6 ∧
    roundTotalPoints ⟨"Target", "2022-01-01", "13:01",
      [⟨"Mountain Dew 12PK", "6.49"⟩, ⟨"Emils Cheese Pizza", "12.25"⟩], "35.35"⟩ = 0 ∧
    quarterTotalPoints ⟨"Target", "2022-01-01", "13:01",
      [⟨"Mountain Dew 12PK", "6.49"⟩, ⟨"Emils Cheese Pizza", "12.25"⟩], "35.35"⟩ = 0 ∧
    itemPairPoints ⟨"Target", "2022-01-01", "13:01",
      [⟨"Mountain Dew 12PK", "6.49"⟩, ⟨"Emils Cheese Pizza", "12.25"⟩], "35.35"⟩ = 5 ∧
    descriptionPoints cvtAmd64 ⟨"Target", "2022-01-01", "13:01",
      [⟨"Mountain Dew 12PK", "6.49"⟩, ⟨"Emils Cheese Pizza", "12.25"⟩], "35.35"⟩ = 3 ∧
    oddDayPoints ⟨"Target", "2022-01-01", "13:01",
      [⟨"Mountain Dew 12PK", "6.49"⟩, ⟨"Emils Cheese Pizza", "12.25"⟩], "35.35"⟩ = 6 ∧
    afternoonPoints ⟨"Target", "2022-01-01", "13:01",
      [⟨"Mountain Dew 12PK", "6.49"⟩, ⟨"Emils Cheese Pizza", "12.25"⟩], "35.35"⟩ = 0 ∧
    calculatePoints cvtAmd64 ⟨"Target", "2022-01-01", "13:01",
      [⟨"Mountain Dew 12PK", "6.49"⟩, ⟨"Emils Cheese Pizza", "12.25"⟩], "35.35"⟩ = 20 :=
  ⟨by decide!, by decide!, by decide!, by decide!, by decide!, by decide!, by decide!,
    ((calculatePoints_sum cvtAmd64 ⟨"Target", "2022-01-01", "13:01",
      [⟨"Mountain Dew 12PK", "6.49"⟩, ⟨"Emils Cheese Pizza", "12.25"⟩], "35.35"⟩).2.1
        (by decide!) (by decide!)).trans (by decide!)⟩

/-- C11, as stated, fails: five items "Gum" priced 10000000000000000000 add
2000000000000000000 each; the seven amounts are 6, 0, 0, 10,
10000000000000000000, 6 and 0, their sum is above the largest `int`, and
`calculatePoints` returns the sum less `2^64`. -/
theorem calculatePoints_sum_overflow :
    calculatePoints cvtAmd64 ⟨"Target", "2022-01-01", "13:01",
      [⟨"Gum", "10000000000000000000"⟩, ⟨"Gum", "10000000000000000000"⟩,
       ⟨"Gum", "10000000000000000000"⟩, ⟨"Gum", "10000000000000000000"⟩,
       ⟨"Gum", "10000000000000000000"⟩], "35.35"⟩ = -8446744073709551594 ∧
    retailerPoints ⟨"Target", "2022-01-01", "13:01",
      [⟨"Gum", "10000000000000000000"⟩, ⟨"Gum", "10000000000000000000"⟩,
       ⟨"Gum", "10000000000000000000"⟩, ⟨"Gum", "10000000000000000000"⟩,
       ⟨"Gum", "10000000000000000000"⟩], "35.35"⟩ = 6 ∧
    itemPairPoints ⟨"Target", "2022-01-01", "13:01",
      [⟨"Gum", "10000000000000000000"⟩, ⟨"Gum", "10000000000000000000"⟩,
       ⟨"Gum", "10000000000000000000"⟩, ⟨"Gum", "10000000000000000000"⟩,
       ⟨"Gum", "10000000000000000000"⟩], "35.35"⟩ = 10 ∧
    descriptionPoints cvtAmd64 ⟨"Target", "2022-01-01", "13:01",
      [⟨"Gum", "10000000000000000000"⟩, ⟨"Gum", "10000000000000000000"⟩,
       ⟨"Gum", "10000000000000000000"⟩, ⟨"Gum", "10000000000000000000"⟩,
       ⟨"Gum", "10000000000000000000"⟩], "35.35"⟩ = 10000000000000000000 ∧
    pointsSum cvtAmd64 ⟨"Target", "2022-01-01", "13:01",
      [⟨"Gum", "10000000000000000000"⟩, ⟨"Gum", "10000000000000000000"⟩,
       ⟨"Gum", "10000000000000000000"⟩, ⟨"Gum", "10000000000000000000"⟩,
       ⟨"Gum", "10000000000000000000"⟩], "35.35"⟩ = 10000000000000000022 ∧
    itemPoints cvtAmd64 ⟨"Gum", "10000000000000000000"⟩ = 2000000000000000000 := by
  decide!

/-! ## Fields that do not parse -/

theorem ParseFloat_syntax_error (s : String)
    (h : (ParseFloat s).2 = some NumError.ErrSyntax) : (ParseFloat s).1 = F64.fin 0 := by
  unfold ParseFloat at h ⊢
  cases hsp : special s.data with
  | some p =>
    obtain ⟨v, rest⟩ := p
    rw [hsp] at h
    simp only at h ⊢
    by_cases hr : rest = []
    · rw [if_pos hr] at h
      simp at h
    · rw [if_neg hr]
  | none =>
    rw [hsp] at h
    simp only at h ⊢
    cases hrf : readFloat s.data with
    | none => rfl
    | some r =>
      rw [hrf] at h
      simp only at h ⊢
      by_cases hc : (!r.consumedOK || decide (r.rest ≠ [])) = true
      · rw [if_pos hc]
      · rw [if_neg hc] at h
        exfalso
        revert h
        generalize (if r.hex = true then F64.ofPow r.neg r.mant 2 (r.exp - 4 * ↑r.frac)
          else F64.ofPow r.neg r.mant 10 (r.exp - ↑r.frac)) = v
        cases v <;> simp

theorem ParseFloat_zero : ParseFloat "0" = (F64.fin 0, none) := by decide!

theorem toInt_Ceil_zero_mul (cvt : F64 → Int) :
    F64.toInt cvt (F64.Ceil (F64.mul (F64.fin 0) const02)) = 0 := by
  have h := toInt_Ceil_fin_nonneg cvt 0 (by positivity)
  have hm : F64.mul (F64.fin 0) const02 = F64.fin ((0 : Nat) : Int) := by decide!
  rw [hm, h]
  have hs := scale_pos
  have : (0 + F64.scale - 1) / F64.scale = 0 := by
    apply Nat.div_eq_of_lt
    omega
  rw [this]
  rfl

/-- C15, amended: a total or price text that is not written as a number
(`strconv.ParseFloat` reports a syntax error) raises no error and is scored
exactly as the text "0": the total gets the 50 and the 25 of rules 2 and 3,
and the price adds 0 in rule 5. -/
theorem syntax_error_scored_as_zero (cvt : F64 → Int) (s : String)
    (h : (ParseFloat s).2 = some NumError.ErrSyntax) :
    (ParseFloat s).1 = (ParseFloat "0").1 ∧
    (∀ r : Receipt, r.Total = s →
      calculatePoints cvt r = calculatePoints cvt { r with Total := "0" }) ∧
    (∀ p : Int, rule2 (ParseFloat s).1 p = addInt p 50 ∧
      rule3 (ParseFloat s).1 p = addInt p 25) ∧
    (∀ (desc : String) (p : Int),
      rule5Item cvt p ⟨desc, s⟩ = rule5Item cvt p ⟨desc, "0"⟩) ∧
    (∀ desc : String, itemPoints cvt ⟨desc, s⟩ = 0) := by
  have hz := ParseFloat_syntax_error s h
  have h0 : (ParseFloat "0").1 = F64.fin 0 := by rw [ParseFloat_zero]
  refine ⟨by rw [hz, h0], ?_, ?_, ?_, ?_⟩
  · intro r hr
    unfold calculatePoints
    simp only [hr, hz, h0]
    rfl
  · intro p
    rw [hz]
    constructor
    · have : F64.eq (F64.fin 0) (F64.Floor (F64.fin 0)) = true := by decide!
      simp only [rule2, this, if_true]
    · have : F64.eq (F64.Mod (F64.fin 0) const025) const0 = true := by decide!
      simp only [rule3, this, if_true]
  · intro desc p
    unfold rule5Item
    simp only [hz, h0]
  · intro desc
    unfold itemPoints
    simp only [hz, toInt_Ceil_zero_mul]
    split_ifs <;> rfl

theorem syntax_error_scored_as_zero_witness :
    (ParseFloat "abc").2 = some NumError.ErrSyntax ∧
    calculatePoints cvtAmd64 ⟨"Target", "2022-01-02", "13:01", [⟨"Gum", "free"⟩], "abc"⟩
      = calculatePoints cvtAmd64 ⟨"Target", "2022-01-02", "13:01", [⟨"Gum", "free"⟩], "0"⟩ ∧
    itemPoints cvtAmd64 ⟨"Gum", "free"⟩ = 0 :=
  ⟨by decide!,
    (syntax_error_scored_as_zero cvtAmd64 "abc" (by decide!)).2.1
      ⟨"Target", "2022-01-02", "13:01", [⟨"Gum", "free"⟩], "abc"⟩ rfl,
    (syntax_error_scored_as_zero cvtAmd64 "free" (by decide!)).2.2.2.2 "Gum"⟩

/-- C15, as stated, fails: "1e999" cannot be parsed into a float64 (range
error), the program goes on with `+Inf`, and rule 3 adds nothing for it while
it adds 25 for the total "0". -/
theorem range_error_not_zero :
    ParseFloat "1e999" = (F64.inf false, some NumError.ErrRange) ∧
    rule3 (ParseFloat "1e999").1 0 = 0 ∧
    rule3 (ParseFloat "0").1 0 = 25 ∧
    rule2 (ParseFloat "1e999").1 0 = 50 := by
  decide!

/-- C16: a purchase date that `time.Parse` rejects raises no error and is
scored as day 1 of the zero time, so the odd-day rule adds 6; a purchase
time that `time.Parse` rejects is scored as 00:00, so the afternoon rule adds
nothing. -/
theorem unparseable_date_and_time (r : Receipt) (points : Int) :
    (parseDate r.PurchaseDate.data = none →
      (parsedOrZero (parseDate r.PurchaseDate.data)).Day = 1 ∧
      rule6 r points = addInt points 6) ∧
    (parseClock r.PurchaseTime.data = none →
      (parsedOrZero (parseClock r.PurchaseTime.data)).Hour = 0 ∧
      (parsedOrZero (parseClock r.PurchaseTime.data)).Minute = 0 ∧
      rule7 r points = points) := by
  constructor
  · intro h
    simp only [rule6, h, parsedOrZero, Option.getD_none]
    exact ⟨rfl, rfl⟩
  · intro h
    simp only [rule7, h, parsedOrZero, Option.getD_none]
    exact ⟨rfl, rfl, rfl⟩

theorem unparseable_date_and_time_witness :
    rule6 ⟨"Target", "2022-02-30", "4pm", [], "35.35"⟩ 0 = 6 ∧
    rule7 ⟨"Target", "2022-02-30", "4pm", [], "35.35"⟩ 0 = 0 ∧
    parseDate "01/02/2022".data = none ∧ parseDate "".data = none ∧
    parseClock "14:60".data = none ∧ parseClock "".data = none :=
  ⟨((unparseable_date_and_time ⟨"Target", "2022-02-30", "4pm", [], "35.35"⟩ 0).1
      (by decide)).2.trans (by decide),
    ((unparseable_date_and_time ⟨"Target", "2022-02-30", "4pm", [], "35.35"⟩ 0).2
      (by decide)).2.2,
    by decide, by decide, by decide, by decide⟩

/-! ## Rules 2 and 3 together -/

theorem floor_eq_imp_mod_quarter (k : Int)
    (h : F64.eq (F64.fin k) (F64.Floor (F64.fin k)) = true) :
    F64.eq (F64.Mod (F64.fin k) const025) const0 = true := by
  rw [const025_eq]
  unfold F64.eq F64.Floor at h
  simp only [beq_iff_eq] at h
  have hU : F64.scale = 2 ^ 1072 * 4 := by
    rw [F64.scale]
    norm_num
  rw [hU] at h
  have hne : ¬ (((2 ^ 1072 : Nat) : Int) = 0) := by
    have : 0 < (2 ^ 1072 : Nat) := by positivity
    omega
  unfold F64.Mod F64.eq const0
  simp only [hne, if_false, Int.natAbs_ofNat, beq_iff_eq]
  have hdvd : (2 ^ 1072 : Nat) ∣ k.natAbs := by
    have h1 : ((2 ^ 1072 : Nat) : Int) ∣ k := by
      refine ⟨k / ((2 ^ 1072 * 4 : Nat) : Int) * 4, ?_⟩
      have e : k / ((2 ^ 1072 * 4 : Nat) : Int) * ((2 ^ 1072 * 4 : Nat) : Int)
          = ((2 ^ 1072 : Nat) : Int) * (k / ((2 ^ 1072 * 4 : Nat) : Int) * 4) := by
        push_cast
        ring
      rw [← e]
      exact h
    exact Int.natCast_dvd.1 h1
  have hmod : k.natAbs % 2 ^ 1072 = 0 := Nat.mod_eq_zero_of_dvd hdvd
  rw [hmod]
  split_ifs <;> rfl

/-- C19: when the total parses to a finite float64, a total that gets the 50
of the round-total rule gets the 25 of the quarter-total rule as well: rules
2 and 3 together add 0, 25 or 75, never 50. -/
theorem round_total_implies_quarter (r : Receipt) (k : Int)
    (h : (ParseFloat r.Total).1 = F64.fin k) :
    (roundTotalPoints r = 50 → quarterTotalPoints r = 25) ∧
    (roundTotalPoints r + quarterTotalPoints r = 0 ∨
      roundTotalPoints r + quarterTotalPoints r = 25 ∨
      roundTotalPoints r + quarterTotalPoints r = 75) ∧
    (rule3 (ParseFloat r.Total).1 (rule2 (ParseFloat r.Total).1 0) = 0 ∨
      rule3 (ParseFloat r.Total).1 (rule2 (ParseFloat r.Total).1 0) = 25 ∨
      rule3 (ParseFloat r.Total).1 (rule2 (ParseFloat r.Total).1 0) = 75) := by
  have key := floor_eq_imp_mod_quarter k
  unfold roundTotalPoints quarterTotalPoints rule2 rule3
  rw [h]
  by_cases h2 : F64.eq (F64.fin k) (F64.Floor (F64.fin k)) = true
  · have h3 := key h2
    simp only [h2, h3, if_true]
    refine ⟨?_, ?_, ?_⟩
    · simp
    · norm_num
    · decide
  · simp only [h2]
    by_cases h3 : F64.eq (F64.Mod (F64.fin k) const025) const0 = true
    · simp only [h3, if_true]
      refine ⟨?_, ?_, ?_⟩
      · simp
      · norm_num
      · decide
    · simp only [h3]
      refine ⟨?_, ?_, ?_⟩
      · simp
      · norm_num
      · simp

theorem round_total_implies_quarter_witness :
    roundTotalPoints ⟨"Target", "2022-01-01", "13:01", [], "35.00"⟩
      + quarterTotalPoints ⟨"Target", "2022-01-01", "13:01", [], "35.00"⟩ = 75 ∧
    roundTotalPoints ⟨"Target", "2022-01-01", "13:01", [], "35.25"⟩
      + quarterTotalPoints ⟨"Target", "2022-01-01", "13:01", [], "35.25"⟩ = 25 ∧
    roundTotalPoints ⟨"Target", "2022-01-01", "13:01", [], "35.35"⟩
      + quarterTotalPoints ⟨"Target", "2022-01-01", "13:01", [], "35.35"⟩ = 0 ∧
    roundTotalPoints ⟨"Target", "2022-01-01", "13:01", [], "1e999"⟩
      + quarterTotalPoints ⟨"Target", "2022-01-01", "13:01", [], "1e999"⟩ = 50 :=
  ⟨by
      have h := (round_total_implies_quarter ⟨"Target", "2022-01-01", "13:01", [], "35.00"⟩
        (35 * F64.scale) (by decide!)).1 (by decide!)
      rw [h]
      decide!,
    by decide!, by decide!, by decide!⟩

end ReceiptProcessor
